import Mathlib

/-!
# CourseWeave data-pipeline: verification of the quality/integrity engine

Shallow embedding of the core data-quality engine of the CourseWeave
pipeline (`Data-Pipeline/scripts/preprocess_data.py`, `validate_data.py`,
`detect_anomalies.py` and the program-coverage section of
`dags/pipeline_dag.py`), together with proofs of its stated properties.

Modelling conventions:
* pandas DataFrames are lists of rows; a row's nullable cell is an `Option`.
* Python strings are lists of code points (`PyStr := List Nat`); the string
  transformations `strip`, `upper`, `title` are modelled on ASCII.
* SQL result sets are lists produced by nested-loop joins; the recursive CTE
  of `detect_circular_prerequisites` is unfolded level by level, with enough
  levels to exhaust every derivable row.
* Python floats are modelled as exact rationals; `round(x, 2)` is rational
  rounding to two decimal places.
* Exceptions (`KeyError`, `ValueError`) are modelled with `Except String`.
-/

set_option linter.unusedSectionVars false

namespace CourseWeave

/-! ## Cycle detection (`detect_anomalies.detect_circular_prerequisites`)

The SQL recursive CTE `prereq_chain`:

* base case: one row per edge `(course_code, required_course_code)` with
  `visited = [course_code]` and `is_cycle = FALSE`;
* step: a row `pc` that is not yet a cycle is joined with every edge `p`
  such that `p.course_code = pc.required_course_code`, producing the row
  `(p.course_code, p.required_course_code, visited ++ [p.course_code],
  p.course_code = ANY(visited))`;
* the query returns the distinct `(course_code, required_course_code)`
  pairs of the rows with `is_cycle = TRUE`.
-/

variable {α : Type} [DecidableEq α]

/-- One row of the recursive CTE `prereq_chain`. -/
structure ChainRow (α : Type) where
  course : α
  req : α
  visited : List α
  is_cycle : Bool
deriving DecidableEq

/-- The non-recursive part of the CTE: one row per prerequisite edge. -/
def baseRows (E : List (α × α)) : List (ChainRow α) :=
  E.map fun e => ⟨e.1, e.2, [e.1], false⟩

/-- The recursive part of the CTE: extend every non-cycle row by every edge
whose source equals the row's `required_course_code`. -/
def stepRows (E : List (α × α)) (rows : List (ChainRow α)) : List (ChainRow α) :=
  (rows.filter fun pc => !pc.is_cycle).flatMap fun pc =>
    (E.filter fun p => p.1 = pc.req).map fun p =>
      ⟨p.1, p.2, pc.visited ++ [p.1], decide (p.1 ∈ pc.visited)⟩

/-- The rows produced at recursion depth `n`. -/
def iterRows (E : List (α × α)) : Nat → List (ChainRow α)
  | 0 => baseRows E
  | n + 1 => stepRows E (iterRows E n)

/-- All rows of the CTE.  A non-cycle row at depth `n` carries `n + 1`
pairwise-distinct visited nodes, each of which is the source of some edge, so
no row exists beyond depth `E.length + 1` and the union below is exhaustive. -/
def allRows (E : List (α × α)) : List (ChainRow α) :=
  (List.range (E.length + 2)).flatMap (iterRows E)

/-- `detect_circular_prerequisites`: the distinct `(course_code,
required_course_code)` pairs of the cycle-flagged rows. -/
def detect_circular_prerequisites (E : List (α × α)) : List (α × α) :=
  (((allRows E).filter fun r => r.is_cycle).map fun r => (r.course, r.req)).dedup

/-- Reachability in ≥ 1 step along the `requires` edges. -/
inductive Reach (E : List (α × α)) : α → α → Prop
  | single {u v : α} : (u, v) ∈ E → Reach E u v
  | head {u v w : α} : (u, v) ∈ E → Reach E v w → Reach E u w

/-- An edge participates in a directed cycle: the edge is in the graph and its
target reaches its source (in zero steps for a self-loop, else along edges). -/
def EdgeOnCycle (E : List (α × α)) (e : α × α) : Prop :=
  e ∈ E ∧ (e.2 = e.1 ∨ Reach E e.2 e.1)

theorem Reach.trans {E : List (α × α)} {u v w : α}
    (h1 : Reach E u v) (h2 : Reach E v w) : Reach E u w := by
  induction h1 with
  | single h => exact Reach.head h h2
  | head h _ ih => exact Reach.head h (ih h2)

theorem Reach.src_mem {E : List (α × α)} {u v : α}
    (h : Reach E u v) : u ∈ E.map Prod.fst := by
  cases h with
  | single h => exact List.mem_map.mpr ⟨_, h, rfl⟩
  | head h _ => exact List.mem_map.mpr ⟨_, h, rfl⟩

/-- Invariant of the CTE rows: the row carries an edge of the graph, its
`visited` list is a directed path ending at the row's `course`, and a set
cycle flag pins the row's `course` to an earlier point of that path. -/
def RowInv (E : List (α × α)) (r : ChainRow α) : Prop :=
  (r.course, r.req) ∈ E ∧
  r.visited.getLast? = some r.course ∧
  (∀ v ∈ r.visited.dropLast, Reach E v r.course) ∧
  (r.is_cycle = true → r.course ∈ r.visited.dropLast)

theorem rowInv_base {E : List (α × α)} {r : ChainRow α}
    (h : r ∈ baseRows E) : RowInv E r := by
  rcases List.mem_map.mp h with ⟨e, he, rfl⟩
  refine ⟨he, rfl, ?_, by simp⟩
  simp [List.dropLast]

theorem rowInv_step {E : List (α × α)} {rows : List (ChainRow α)}
    (ih : ∀ r ∈ rows, RowInv E r) {r : ChainRow α}
    (h : r ∈ stepRows E rows) : RowInv E r := by
  rcases List.mem_flatMap.mp h with ⟨pc, hpc, hr⟩
  rcases List.mem_filter.mp hpc with ⟨hpcmem, _⟩
  rcases List.mem_map.mp hr with ⟨p, hp, rfl⟩
  rcases List.mem_filter.mp hp with ⟨hpmem, hpeq⟩
  have hpeq' : p.1 = pc.req := by simpa using hpeq
  obtain ⟨hedge, hlast, hreach, _⟩ := ih pc hpcmem
  have hedge' : (pc.course, p.1) ∈ E := by
    rw [hpeq']; exact (Prod.mk.eta (p := (pc.course, pc.req))) ▸ hedge
  refine ⟨by simpa using hpmem, List.getLast?_concat _, ?_, ?_⟩
  · intro v hv
    rw [List.dropLast_concat] at hv
    have hstep : Reach E pc.course p.1 := Reach.single hedge'
    rcases List.mem_append.mp ((List.dropLast_append_getLast? _ hlast).symm ▸ hv) with
      hv' | hv'
    · exact (hreach v hv').trans hstep
    · simpa [List.mem_singleton.mp hv'] using hstep
  · intro hcy
    rw [List.dropLast_concat]
    simpa using hcy

theorem rowInv_iter {E : List (α × α)} {n : Nat} {r : ChainRow α}
    (h : r ∈ iterRows E n) : RowInv E r := by
  induction n generalizing r with
  | zero => exact rowInv_base h
  | succ n ihn => exact rowInv_step (fun s hs => ihn hs) h

theorem rowInv_allRows {E : List (α × α)} {r : ChainRow α}
    (h : r ∈ allRows E) : RowInv E r := by
  rcases List.mem_flatMap.mp h with ⟨n, _, hr⟩
  exact rowInv_iter hr

/-- Soundness of the CTE: every reported pair is an edge of the graph whose
source node lies on a directed cycle. -/
theorem detect_sound {E : List (α × α)} {u w : α}
    (h : (u, w) ∈ detect_circular_prerequisites E) :
    (u, w) ∈ E ∧ Reach E u u := by
  have h' := List.mem_dedup.mp h
  rcases List.mem_map.mp h' with ⟨r, hr, heq⟩
  rcases List.mem_filter.mp hr with ⟨hmem, hcy⟩
  obtain ⟨hedge, _, hreach, hcyc⟩ := rowInv_allRows hmem
  have hc : r.course = u := congrArg Prod.fst heq
  have hq : r.req = w := congrArg Prod.snd heq
  subst hc hq
  have hcy' : r.is_cycle = true := by simpa using hcy
  exact ⟨hedge, hreach _ (hcyc hcy')⟩

/-- The step relation of the prerequisite graph, as a binary relation. -/
def edgeRel (E : List (α × α)) (a b : α) : Prop := (a, b) ∈ E

theorem reach_iff_chain {E : List (α × α)} {u v : α} :
    Reach E u v ↔ ∃ l : List α, List.Chain (edgeRel E) u (l ++ [v]) := by
  constructor
  · intro h
    induction h with
    | single h => exact ⟨[], by simp [List.chain_cons, edgeRel, h]⟩
    | head h _ ih =>
      rcases ih with ⟨l, hl⟩
      exact ⟨_ :: l, List.Chain.cons h hl⟩
  · rintro ⟨l, hl⟩
    induction l generalizing u with
    | nil => simpa [List.chain_cons, edgeRel] using Reach.single (by
        cases hl with
        | cons h _ => exact h)
    | cons c l ih =>
      cases hl with
      | cons h hl' => exact Reach.head h (ih hl')

theorem pair_sublist_decomp {l : List α} {a : α} (h : List.Sublist [a, a] l) :
    ∃ s t r, l = s ++ a :: t ++ a :: r := by
  induction l with
  | nil => cases h
  | cons b l ih =>
    cases h with
    | cons _ h' =>
      rcases ih h' with ⟨s, t, r, rfl⟩
      exact ⟨b :: s, t, r, rfl⟩
    | cons₂ _ h' =>
      have hmem : a ∈ l := h'.subset (List.mem_singleton_self a)
      rcases List.append_of_mem hmem with ⟨t, r, rfl⟩
      exact ⟨[], t, r, rfl⟩

/-- Every closed walk from `u` back to `u` contains a closed walk in which
`u` and the intermediate nodes are pairwise distinct. -/
theorem chain_cycle_shorten {R : α → α → Prop} :
    ∀ (n : Nat) (l : List α) (u : α), l.length ≤ n →
      List.Chain R u (l ++ [u]) →
      ∃ l', List.Chain R u (l' ++ [u]) ∧ (u :: l').Nodup := by
  intro n
  induction n with
  | zero =>
    intro l u hlen hl
    have : l = [] := List.length_eq_zero.mp (Nat.le_zero.mp hlen)
    subst this
    exact ⟨[], hl, List.nodup_singleton u⟩
  | succ n ih =>
    intro l u hlen hl
    by_cases hnd : (u :: l).Nodup
    · exact ⟨l, hl, hnd⟩
    · rcases (by
        by_contra hcon
        push_neg at hcon
        exact hnd (List.nodup_cons.mpr ⟨hcon.1, hcon.2⟩) :
          u ∈ l ∨ ¬ l.Nodup) with hmem | hdup
      · rcases List.append_of_mem hmem with ⟨l₁, l₂, rfl⟩
        have hl' : List.Chain R u (l₁ ++ u :: (l₂ ++ [u])) := by
          simpa using hl
        have h2 := (List.chain_split.mp hl').2
        refine ih l₂ u ?_ h2
        have : l₂.length < (l₁ ++ u :: l₂).length := by
          simp [List.length_append]
          omega
        omega
      · rw [List.nodup_iff_sublist] at hdup
        push_neg at hdup
        rcases hdup with ⟨a, ha⟩
        rcases pair_sublist_decomp ha with ⟨s, t, r, rfl⟩
        have hl' : List.Chain R u (s ++ a :: (t ++ a :: (r ++ [u]))) := by
          simpa using hl
        have h1 := List.chain_split.mp hl'
        have h2 := List.chain_split.mp h1.2
        have h3 : List.Chain R u (s ++ a :: (r ++ [u])) :=
          List.chain_split.mpr ⟨h1.1, h2.2⟩
        have h4 : List.Chain R u ((s ++ a :: r) ++ [u]) := by
          simpa using h3
        refine ih (s ++ a :: r) u ?_ h4
        have : (s ++ a :: r).length < (s ++ a :: t ++ a :: r).length := by
          simp [List.length_append]
          omega
        omega

/-- Peel the final edge off a walk.  -/
theorem chain_concat_split {R : α → α → Prop} :
    ∀ {l : List α} {u b : α}, List.Chain R u (l ++ [b]) →
      List.Chain R u l ∧ ∀ x, (u :: l).getLast? = some x → R x b := by
  intro l
  induction l with
  | nil =>
    intro u b h
    cases h with
    | cons h _ =>
      refine ⟨List.Chain.nil, fun x hx => ?_⟩
      have hxu : x = u := by simpa using hx.symm
      subst hxu
      exact h
  | cons c l ih =>
    intro u b h
    cases h with
    | cons h h' =>
      obtain ⟨hc, hlast⟩ := ih h'
      refine ⟨List.Chain.cons h hc, fun x hx => ?_⟩
      exact hlast x (by simpa [List.getLast?_cons_cons] using hx)

theorem chain_sources {E : List (α × α)} :
    ∀ {l : List α} {u b : α}, List.Chain (edgeRel E) u (l ++ [b]) →
      ∀ v ∈ u :: l, v ∈ E.map Prod.fst := by
  intro l
  induction l with
  | nil =>
    intro u b h v hv
    cases h with
    | cons h _ =>
      rcases List.mem_singleton.mp hv with rfl
      exact List.mem_map.mpr ⟨_, h, rfl⟩
  | cons c l ih =>
    intro u b h v hv
    cases h with
    | cons h h' =>
      rcases List.mem_cons.mp hv with rfl | hv'
      · exact List.mem_map.mpr ⟨_, h, rfl⟩
      · exact ih h' v hv'

/-- A distinct-node walk of the graph yields a (non-cycle) CTE row whose
`visited` list is exactly the walk. -/
theorem chain_row_mem {E : List (α × α)} :
    ∀ (l : List α) (u a z : α), List.Chain (edgeRel E) u l → (u :: l).Nodup →
      (u :: l).getLast? = some a → (a, z) ∈ E →
      ChainRow.mk a z (u :: l) false ∈ iterRows E l.length := by
  intro l
  induction l using List.reverseRecOn with
  | nil =>
    intro u a z _ _ hlast hedge
    have ha : a = u := by simpa using hlast.symm
    subst ha
    exact List.mem_map.mpr ⟨(a, z), hedge, rfl⟩
  | append_singleton l b ih =>
    intro u a z hchain hnd hlast hedge
    have hab : a = b := by
      have : (u :: (l ++ [b])).getLast? = some b := by
        simpa using List.getLast?_concat (u :: l)
      rw [this] at hlast
      exact (Option.some.inj hlast).symm
    subst hab
    obtain ⟨hc, hstep⟩ := chain_concat_split hchain
    have hne : u :: l ≠ [] := by simp
    obtain ⟨a', ha'⟩ := List.getLast?_isSome.mpr hne |> Option.isSome_iff_exists.mp
    have hedge' : (a', a) ∈ E := hstep a' ha'
    have hnd' : (u :: l).Nodup := by
      have : ((u :: l) ++ [a]).Nodup := by simpa using hnd
      exact this.of_append_left
    have hpc := ih u a' a hc hnd' ha' hedge'
    have hlen : iterRows E (l ++ [a]).length = stepRows E (iterRows E l.length) := by
      rw [List.length_append]
      rfl
    rw [hlen]
    refine List.mem_flatMap.mpr ⟨ChainRow.mk a' a (u :: l) false, ?_, ?_⟩
    · exact List.mem_filter.mpr ⟨hpc, rfl⟩
    · have hndapp : ((u :: l) ++ [a]).Nodup := by simpa using hnd
      have hnotmem : a ∉ u :: l := fun hmem =>
        (List.disjoint_of_nodup_append hndapp) hmem (List.mem_singleton_self a)
      refine List.mem_map.mpr ⟨(a, z), ?_, ?_⟩
      · exact List.mem_filter.mpr ⟨hedge, by simp⟩
      · simp [hnotmem]

/-- Completeness of the CTE: every edge whose source lies on a directed cycle
is reported. -/
theorem detect_complete {E : List (α × α)} {u w : α}
    (hE : (u, w) ∈ E) (hcy : Reach E u u) :
    (u, w) ∈ detect_circular_prerequisites E := by
  obtain ⟨l₀, hl₀⟩ := reach_iff_chain.mp hcy
  obtain ⟨l, hchain, hnd⟩ := chain_cycle_shorten l₀.length l₀ u le_rfl hl₀
  obtain ⟨hc, hstep⟩ := chain_concat_split hchain
  have hne : u :: l ≠ [] := by simp
  obtain ⟨a', ha'⟩ := List.getLast?_isSome.mpr hne |> Option.isSome_iff_exists.mp
  have hedge' : (a', u) ∈ E := hstep a' ha'
  have hpc := chain_row_mem l u a' u hc hnd ha' hedge'
  -- the cycle-flagged row produced by extending the walk with the edge (u, w)
  have hrow : ChainRow.mk u w ((u :: l) ++ [u]) true ∈ iterRows E (l.length + 1) := by
    show _ ∈ stepRows E (iterRows E l.length)
    refine List.mem_flatMap.mpr ⟨ChainRow.mk a' u (u :: l) false, ?_, ?_⟩
    · exact List.mem_filter.mpr ⟨hpc, rfl⟩
    · refine List.mem_map.mpr ⟨(u, w), ?_, ?_⟩
      · exact List.mem_filter.mpr ⟨hE, by simp⟩
      · simp
  have hbound : l.length + 1 ≤ E.length := by
    have hsub : (u :: l) ⊆ E.map Prod.fst := fun v hv => chain_sources hchain v hv
    have := (hnd.subperm hsub).length_le
    simpa using this
  have hall : ChainRow.mk u w ((u :: l) ++ [u]) true ∈ allRows E := by
    refine List.mem_flatMap.mpr ⟨l.length + 1, ?_, hrow⟩
    exact List.mem_range.mpr (by omega)
  refine List.mem_dedup.mpr (List.mem_map.mpr ⟨_, List.mem_filter.mpr ⟨hall, rfl⟩, rfl⟩)

/-- Along a ranking that strictly increases over every edge, reachability
strictly increases; hence a graph admitting such a ranking has no cycle. -/
theorem reach_mono {E : List (α × α)} {f : α → Nat}
    (hf : ∀ e ∈ E, f e.1 < f e.2) {u v : α} (h : Reach E u v) : f u < f v := by
  induction h with
  | single h => exact hf _ h
  | head h _ ih => exact Nat.lt_trans (hf _ h) ih

end CourseWeave

namespace CourseWeaveClaims

open CourseWeave

/-- C1 (counterexample): in the graph `0→1→2→0` with the extra edge `0→3`,
`detect_circular_prerequisites` reports the pair `(0, 3)` even though the edge
`(0, 3)` does not participate in any directed cycle — refuting the claimed
absence of false positives. -/
theorem detect_circular_reports_non_cycle_edge :
    (0, 3) ∈ detect_circular_prerequisites [((0 : Nat), (1 : Nat)), (1, 2), (2, 0), (0, 3)] ∧
    ¬ EdgeOnCycle [((0 : Nat), (1 : Nat)), (1, 2), (2, 0), (0, 3)] (0, 3) := by
  refine ⟨by decide, ?_⟩
  rintro ⟨_, h | h⟩
  · exact absurd h (by decide)
  · exact absurd h.src_mem (by decide)

/-- C1 (amended): every pair reported by `detect_circular_prerequisites` is an
edge of the prerequisite graph whose source course lies on at least one
directed cycle of the `requires` relation (the reported edge itself need not
lie on a cycle). -/
theorem detect_circular_source_on_cycle {α : Type} [DecidableEq α]
    (E : List (α × α)) (e : α × α)
    (h : e ∈ detect_circular_prerequisites E) : e ∈ E ∧ Reach E e.1 e.1 :=
  detect_sound h

/-- Witness for C1 (amended) at the concrete 3-cycle `0→1→2→0`. -/
theorem detect_circular_source_on_cycle_witness :
    (0, 1) ∈ detect_circular_prerequisites [((0 : Nat), (1 : Nat)), (1, 2), (2, 0)] ∧
    ((0, 1) ∈ [((0 : Nat), (1 : Nat)), (1, 2), (2, 0)] ∧
      Reach [((0 : Nat), (1 : Nat)), (1, 2), (2, 0)] 0 0) :=
  ⟨by decide, detect_circular_source_on_cycle _ (0, 1) (by decide)⟩

/-- C5: cycle detection is complete — every edge lying on at least one
directed cycle is reported; a graph in which no node reaches itself yields the
empty result; and for the injected 3-cycle `0→1→2→0` all three edges are
returned. -/
theorem detect_circular_complete_and_empty_on_acyclic {α : Type} [DecidableEq α] :
    (∀ (E : List (α × α)) (e : α × α), EdgeOnCycle E e →
        e ∈ detect_circular_prerequisites E) ∧
    (∀ E : List (α × α), (∀ u, ¬ Reach E u u) →
        detect_circular_prerequisites E = []) ∧
    (∀ e ∈ [((0 : Nat), (1 : Nat)), (1, 2), (2, 0)],
        e ∈ detect_circular_prerequisites [((0 : Nat), (1 : Nat)), (1, 2), (2, 0)]) := by
  refine ⟨?_, ?_, by decide⟩
  · rintro E ⟨u, w⟩ ⟨hmem, hcy | hcy⟩
    · refine detect_complete hmem ?_
      simp only at hcy
      subst hcy
      exact Reach.single hmem
    · exact detect_complete hmem (Reach.head hmem hcy)
  · intro E hacy
    refine List.eq_nil_iff_forall_not_mem.mpr ?_
    rintro ⟨u, w⟩ hmem
    exact hacy u (detect_sound hmem).2

/-- Witness for C5 at the 3-cycle `0→1→2→0` (completeness) and at the acyclic
chain `0→1→2` (empty result). -/
theorem detect_circular_complete_and_empty_on_acyclic_witness :
    (EdgeOnCycle [((0 : Nat), (1 : Nat)), (1, 2), (2, 0)] (0, 1) ∧
      (0, 1) ∈ detect_circular_prerequisites [((0 : Nat), (1 : Nat)), (1, 2), (2, 0)]) ∧
    detect_circular_prerequisites [((0 : Nat), (1 : Nat)), (1, 2)] = [] := by
  have hcyc : EdgeOnCycle [((0 : Nat), (1 : Nat)), (1, 2), (2, 0)] (0, 1) :=
    ⟨by decide, Or.inr (Reach.head (v := 2) (by decide) (Reach.single (by decide)))⟩
  refine ⟨⟨hcyc, detect_circular_complete_and_empty_on_acyclic.1 _ _ hcyc⟩, ?_⟩
  refine detect_circular_complete_and_empty_on_acyclic.2.1 _ ?_
  intro u h
  exact absurd (reach_mono (f := id) (by decide) h) (lt_irrefl _)

end CourseWeaveClaims

namespace CourseWeave

/-! ## Fairness analyzer (`pipeline_dag.task_bias_detection`, program coverage)

The coverage section iterates over the five expected programs; for each it
computes `count = program_counts.get(program, 0)` and
`percentage = round((count / total_courses) * 100, 2) if total_courses else 0`,
then appends a LOW COVERAGE flag when `percentage < 10.0` and a MISSING
PROGRAM flag when `count == 0`.  Floats are modelled as exact rationals and
the two flag strings as tagged values carrying the interpolated data. -/

/-- Python `round(x, 2)`: rounding to two decimal places (ties, which no
value in this development hits, round half-up here). -/
def round2 (q : ℚ) : ℚ := (round (q * 100) : ℤ) / 100

/-- The fixed enumerated set of program identifiers. -/
def expected_programs : List String := ["MS_DAE", "MS_DS", "MS_CS", "MS_DA", "MS_IS"]

/-- Per-program entry of `bias_report["program_coverage"]`. -/
structure Coverage where
  count : Nat
  percentage : ℚ
deriving DecidableEq

/-- The two coverage bias-flag strings, as tagged values. -/
inductive BiasFlag where
  | low_coverage (program : String) (percentage : ℚ) (count : Nat)
  | missing_program (program : String)
deriving DecidableEq

/-- `program_counts.get(program, 0)` where
`program_counts = courses["program_code"].value_counts().to_dict()`. -/
def programCount (programs : List String) (program : String) : Nat :=
  programs.count program

/-- Count and percentage computed for one program by the coverage loop. -/
def program_coverage (programs : List String) (program : String) : Coverage :=
  let total := programs.length
  let count := programCount programs program
  { count := count
    percentage := if total = 0 then 0 else round2 ((count : ℚ) / (total : ℚ) * 100) }

/-- The flags appended for one program by one iteration of the coverage loop. -/
def coverage_flags_for (programs : List String) (program : String) : List BiasFlag :=
  let c := program_coverage programs program
  (if c.percentage < 10 then [BiasFlag.low_coverage program c.percentage c.count] else []) ++
  (if c.count = 0 then [BiasFlag.missing_program program] else [])

/-- All coverage flags of one run of `task_bias_detection`. -/
def coverage_bias_flags (programs : List String) : List BiasFlag :=
  expected_programs.flatMap (coverage_flags_for programs)

theorem round2_zero : round2 0 = 0 := by
  norm_num [round2]

theorem low_coverage_tag {programs : List String} {q pr : String} {p : ℚ} {c : Nat}
    (h : BiasFlag.low_coverage pr p c ∈ coverage_flags_for programs q) : pr = q := by
  unfold coverage_flags_for at h
  rcases List.mem_append.mp h with h | h <;> split_ifs at h <;> simp_all

theorem missing_program_tag {programs : List String} {q pr : String}
    (h : BiasFlag.missing_program pr ∈ coverage_flags_for programs q) : pr = q := by
  unfold coverage_flags_for at h
  rcases List.mem_append.mp h with h | h <;> split_ifs at h <;> simp_all

theorem low_mem_run_iff {programs : List String} {pr : String} {p : ℚ} {c : Nat} :
    BiasFlag.low_coverage pr p c ∈ coverage_bias_flags programs ↔
      pr ∈ expected_programs ∧
        BiasFlag.low_coverage pr p c ∈ coverage_flags_for programs pr := by
  constructor
  · intro h
    rcases List.mem_flatMap.mp h with ⟨q, hq, hmem⟩
    have := low_coverage_tag hmem
    subst this
    exact ⟨hq, hmem⟩
  · rintro ⟨h1, h2⟩
    exact List.mem_flatMap.mpr ⟨pr, h1, h2⟩

theorem missing_mem_run_iff {programs : List String} {pr : String} :
    BiasFlag.missing_program pr ∈ coverage_bias_flags programs ↔
      pr ∈ expected_programs ∧
        BiasFlag.missing_program pr ∈ coverage_flags_for programs pr := by
  constructor
  · intro h
    rcases List.mem_flatMap.mp h with ⟨q, hq, hmem⟩
    have := missing_program_tag hmem
    subst this
    exact ⟨hq, hmem⟩
  · rintro ⟨h1, h2⟩
    exact List.mem_flatMap.mpr ⟨pr, h1, h2⟩

theorem coverage_percentage_of_count_zero {programs : List String} {program : String}
    (h : programs.count program = 0) :
    (program_coverage programs program).percentage = 0 := by
  simp only [program_coverage, programCount]
  split_ifs with ht
  · rfl
  · rw [h]
    norm_num [round2_zero]

theorem coverage_flags_for_count_zero {programs : List String} {program : String}
    (h : programs.count program = 0) :
    BiasFlag.low_coverage program 0 0 ∈ coverage_flags_for programs program ∧
    BiasFlag.missing_program program ∈ coverage_flags_for programs program := by
  have hp := coverage_percentage_of_count_zero h
  have hc : (program_coverage programs program).count = 0 := h
  simp only [coverage_flags_for, hp, hc]
  norm_num

theorem coverage_flags_for_no_missing {programs : List String} {program : String}
    (h : programs.count program ≠ 0) :
    BiasFlag.missing_program program ∉ coverage_flags_for programs program := by
  have hc : (program_coverage programs program).count = programs.count program := rfl
  simp only [coverage_flags_for, hc]
  intro hmem
  rcases List.mem_append.mp hmem with hm | hm
  · split_ifs at hm <;> simp_all
  · rw [if_neg h] at hm
    exact absurd hm (List.not_mem_nil _)

end CourseWeave

namespace CourseWeaveClaims

open CourseWeave

/-- C2 (counterexample): with the single-course dataset `["MS_DS"]`, the
program `MS_CS` has `count = 0` and `percentage = 0 < 10.0`, so one run emits
both a LOW COVERAGE flag and a MISSING PROGRAM flag for the same program,
refuting the claimed mutual exclusion (the code has no `count ≥ 1` guard on
the low-coverage flag). -/
theorem coverage_both_flags_fire_for_missing_program :
    BiasFlag.low_coverage "MS_CS" 0 0 ∈ coverage_bias_flags ["MS_DS"] ∧
    BiasFlag.missing_program "MS_CS" ∈ coverage_bias_flags ["MS_DS"] := by
  constructor
  · exact low_mem_run_iff.mpr ⟨by decide, (coverage_flags_for_count_zero (by decide)).1⟩
  · exact missing_mem_run_iff.mpr ⟨by decide, (coverage_flags_for_count_zero (by decide)).2⟩

/-- C2 (amended): the LOW_COVERAGE flag fires whenever `percentage < 10.0`,
with no at-least-one-course guard, so the two flags are not mutually
exclusive per program: a run emits both flags for an expected program exactly
when that program's course count is zero. -/
theorem coverage_both_flags_iff_count_zero (programs : List String) (program : String)
    (hp : program ∈ expected_programs) :
    ((∃ p c, BiasFlag.low_coverage program p c ∈ coverage_bias_flags programs) ∧
        BiasFlag.missing_program program ∈ coverage_bias_flags programs) ↔
      programs.count program = 0 := by
  constructor
  · rintro ⟨_, hmiss⟩
    by_contra hne
    exact coverage_flags_for_no_missing hne (missing_mem_run_iff.mp hmiss).2
  · intro h
    obtain ⟨hlow, hmiss⟩ := coverage_flags_for_count_zero h
    exact ⟨⟨0, 0, low_mem_run_iff.mpr ⟨hp, hlow⟩⟩, missing_mem_run_iff.mpr ⟨hp, hmiss⟩⟩

/-- Witness for C2 (amended) at the dataset `["MS_DS"]` and program `MS_CS`. -/
theorem coverage_both_flags_iff_count_zero_witness :
    "MS_CS" ∈ expected_programs ∧
    (((∃ p c, BiasFlag.low_coverage "MS_CS" p c ∈ coverage_bias_flags ["MS_DS"]) ∧
        BiasFlag.missing_program "MS_CS" ∈ coverage_bias_flags ["MS_DS"]) ↔
      List.count "MS_CS" ["MS_DS"] = 0) :=
  ⟨by decide, coverage_both_flags_iff_count_zero ["MS_DS"] "MS_CS" (by decide)⟩

/-- C8 (counterexample): with 3 courses of which 1 belongs to `MS_CS`, the
computed percentage is `round((1/3)*100, 2) = 33.33`, which differs from the
exact value `100 * 1 / 3` claimed by the spec: the claim omits the
two-decimal rounding performed by the code. -/
theorem coverage_percentage_not_exact_ratio :
    (program_coverage ["MS_CS", "MS_DS", "MS_DS"] "MS_CS").percentage ≠ 100 * 1 / 3 ∧
    (program_coverage ["MS_CS", "MS_DS", "MS_DS"] "MS_CS").percentage = 3333 / 100 := by
  have hc : List.count "MS_CS" ["MS_CS", "MS_DS", "MS_DS"] = 1 := by decide
  have hp : (program_coverage ["MS_CS", "MS_DS", "MS_DS"] "MS_CS").percentage = 3333 / 100 := by
    simp only [program_coverage, programCount, hc]
    norm_num [round2, round_eq]
  refine ⟨?_, hp⟩
  rw [hp]
  norm_num

/-- C8 (amended): the coverage percentage equals `100 * count / total_courses`
rounded to two decimal places (and is 0 when `total_courses = 0`); at the
boundary — a program holding exactly 1 of 10 courses — the percentage is
exactly 10.0 and no LOW COVERAGE flag is emitted for it, because the flag
condition is strictly less-than 10.0. -/
theorem coverage_percentage_rounded_and_boundary :
    (∀ (programs : List String) (program : String),
      (programs.length = 0 → (program_coverage programs program).percentage = 0) ∧
      (programs.length ≠ 0 → (program_coverage programs program).percentage =
        round2 (100 * (programs.count program : ℚ) / (programs.length : ℚ)))) ∧
    (program_coverage ("MS_CS" :: List.replicate 9 "MS_DS") "MS_CS").percentage = 10 ∧
    (∀ p c, BiasFlag.low_coverage "MS_CS" p c ∉
        coverage_bias_flags ("MS_CS" :: List.replicate 9 "MS_DS")) := by
  have hc10 : List.count "MS_CS" ("MS_CS" :: List.replicate 9 "MS_DS") = 1 := by decide
  have hl10 : ("MS_CS" :: List.replicate 9 "MS_DS").length = 10 := by decide
  have hp10 : (program_coverage ("MS_CS" :: List.replicate 9 "MS_DS") "MS_CS").percentage = 10 := by
    simp only [program_coverage, programCount, hc10, hl10]
    norm_num [round2, round_eq]
  refine ⟨?_, hp10, ?_⟩
  · intro programs program
    constructor
    · intro h
      simp only [program_coverage, programCount]
      rw [if_pos h]
    · intro h
      simp only [program_coverage, programCount]
      rw [if_neg h]
      have harg : ((programs.count program : ℚ)) / (programs.length : ℚ) * 100 =
          100 * (programs.count program : ℚ) / (programs.length : ℚ) := by ring
      rw [harg]
  · intro p c hmem
    have h2 := (low_mem_run_iff.mp hmem).2
    have hcnt : (program_coverage ("MS_CS" :: List.replicate 9 "MS_DS") "MS_CS").count = 1 := hc10
    have hnil : coverage_flags_for ("MS_CS" :: List.replicate 9 "MS_DS") "MS_CS" = [] := by
      simp only [coverage_flags_for, hp10, hcnt]
      norm_num
    rw [hnil] at h2
    exact absurd h2 (List.not_mem_nil _)

/-- Witness for C8 (amended) at the one-course dataset `["MS_DS"]`. -/
theorem coverage_percentage_rounded_and_boundary_witness :
    (["MS_DS"] : List String).length ≠ 0 ∧
    (program_coverage ["MS_DS"] "MS_CS").percentage =
      round2 (100 * ((["MS_DS"] : List String).count "MS_CS" : ℚ) /
        ((["MS_DS"] : List String).length : ℚ)) :=
  ⟨by decide, (coverage_percentage_rounded_and_boundary.1 ["MS_DS"] "MS_CS").2 (by decide)⟩

end CourseWeaveClaims

namespace CourseWeave

/-! ## Schema validator (`validate_data.py`)

A DataFrame is a list of rows plus one presence flag per column; a cell is
`none` for a pandas missing value.  Accessing an absent column raises
`KeyError`, modelled with `Except String`.  Python violation dicts carry the
check name plus per-check data; the data are abstracted to a detail string.
Python iterates the set `required_cols & set(df.columns)` in an unspecified
order; the model fixes the textual column order. -/

/-- One row of the courses DataFrame. -/
structure CourseRow where
  course_code : Option String
  course_name : Option String
  credits : Option Int
  program_code : Option String
  course_type : Option String
deriving DecidableEq

/-- The courses DataFrame: column-presence flags plus rows. -/
structure CoursesDF where
  has_course_code : Bool
  has_course_name : Bool
  has_credits : Bool
  has_program_code : Bool
  has_course_type : Bool
  rows : List CourseRow
deriving DecidableEq

/-- One row of the prerequisites DataFrame. -/
structure PrereqRow where
  course_code : Option String
  required_course_code : Option String
deriving DecidableEq

/-- The prerequisites DataFrame. -/
structure PrereqsDF where
  has_course_code : Bool
  has_required_course_code : Bool
  rows : List PrereqRow
deriving DecidableEq

/-- `df["course_code"]` on the courses DataFrame. -/
def CoursesDF.colCourseCode (df : CoursesDF) : Except String (List (Option String)) :=
  if df.has_course_code then .ok (df.rows.map (·.course_code))
  else .error "KeyError: course_code"

/-- `df["program_code"]`. -/
def CoursesDF.colProgramCode (df : CoursesDF) : Except String (List (Option String)) :=
  if df.has_program_code then .ok (df.rows.map (·.program_code))
  else .error "KeyError: program_code"

/-- `df["course_type"]`. -/
def CoursesDF.colCourseType (df : CoursesDF) : Except String (List (Option String)) :=
  if df.has_course_type then .ok (df.rows.map (·.course_type))
  else .error "KeyError: course_type"

/-- `df["credits"]`. -/
def CoursesDF.colCredits (df : CoursesDF) : Except String (List (Option Int)) :=
  if df.has_credits then .ok (df.rows.map (·.credits))
  else .error "KeyError: credits"

/-- `df["course_code"]` on the prerequisites DataFrame. -/
def PrereqsDF.colCourseCode (df : PrereqsDF) : Except String (List (Option String)) :=
  if df.has_course_code then .ok (df.rows.map (·.course_code))
  else .error "KeyError: course_code"

/-- `df["required_course_code"]`. -/
def PrereqsDF.colRequired (df : PrereqsDF) : Except String (List (Option String)) :=
  if df.has_required_course_code then .ok (df.rows.map (·.required_course_code))
  else .error "KeyError: required_course_code"

/-- One schema violation: check name plus abstracted detail. -/
structure Violation where
  check : String
  detail : String
deriving DecidableEq

/-- `VALID_PROGRAM_CODES` of `validate_data.py`. -/
def VALID_PROGRAM_CODES : List String := ["MS_DAE", "MS_DS", "MS_CS", "MS_DA", "MS_IS"]

/-- `VALID_COURSE_TYPES` of `validate_data.py`. -/
def VALID_COURSE_TYPES : List String := ["Core", "Elective"]

/-- `df[col].isnull().sum()`. -/
def nullCount {β : Type} (col : List (Option β)) : Nat :=
  (col.filter fun c => c.isNone).length

/-- `df[col].duplicated().sum()`: rows equal to an earlier row (pandas treats
two missing values as equal here). -/
def dupCount {β : Type} [DecidableEq β] (col : List β) : Nat :=
  col.length - col.dedup.length

/-- pandas `isin`: a missing cell is not in a set of strings. -/
def cellIn (s : List String) (c : Option String) : Bool :=
  match c with
  | some v => s.contains v
  | none => false

/-- pandas elementwise `==` between two cells: `NaN == x` is false. -/
def cellEq (a b : Option String) : Bool :=
  match a, b with
  | some x, some y => x = y
  | _, _ => false

/-- The names of the required course columns absent from the DataFrame. -/
def missingCourseCols (df : CoursesDF) : List String :=
  (if df.has_course_code then [] else ["course_code"]) ++
  (if df.has_course_name then [] else ["course_name"]) ++
  (if df.has_credits then [] else ["credits"]) ++
  (if df.has_program_code then [] else ["program_code"]) ++
  (if df.has_course_type then [] else ["course_type"])

/-- The `no_nulls` violation for one present column. -/
def nullViolation (col : String) (n : Nat) : List Violation :=
  if n ≠ 0 then [⟨"no_nulls", col⟩] else []

/-- `validate_courses`.  Mirrors the Python source line by line: the
missing-columns check only records a violation and does not return, the null
check is guarded per column by presence (`required_cols & set(df.columns)`),
and each later check accesses its column unconditionally — `df["course_code"]`
(uniqueness), `df["program_code"]`, `df["course_type"]`, `df["credits"]` —
raising `KeyError` when that column is absent. -/
def validate_courses (df : CoursesDF) : Except String (List Violation) :=
  let v0 : List Violation :=
    if missingCourseCols df ≠ [] then
      [⟨"required_columns", String.intercalate ", " (missingCourseCols df)⟩]
    else []
  let v1 : List Violation :=
    (if df.has_course_code then
      nullViolation "course_code" (nullCount (df.rows.map (·.course_code))) else []) ++
    (if df.has_course_name then
      nullViolation "course_name" (nullCount (df.rows.map (·.course_name))) else []) ++
    (if df.has_credits then
      nullViolation "credits" (nullCount (df.rows.map (·.credits))) else []) ++
    (if df.has_program_code then
      nullViolation "program_code" (nullCount (df.rows.map (·.program_code))) else []) ++
    (if df.has_course_type then
      nullViolation "course_type" (nullCount (df.rows.map (·.course_type))) else [])
  (df.colCourseCode).bind fun codes =>
    let v2 : List Violation :=
      if dupCount codes ≠ 0 then [⟨"unique_course_code", toString (dupCount codes)⟩] else []
    (df.colProgramCode).bind fun progs =>
      let v3 : List Violation :=
        if (progs.filter fun c => !(cellIn VALID_PROGRAM_CODES c)).length ≠ 0 then
          [⟨"valid_program_code", "invalid values present"⟩] else []
      (df.colCourseType).bind fun types =>
        let v4 : List Violation :=
          if (types.filter fun c => !(cellIn VALID_COURSE_TYPES c)).length ≠ 0 then
            [⟨"valid_course_type", "invalid values present"⟩] else []
        (df.colCredits).bind fun creds =>
          let v5 : List Violation :=
            if creds.any (fun c => match c with | some x => decide (x ≤ 0) | none => false) then
              [⟨"positive_credits", "Credits <= 0 found"⟩] else []
          .ok (v0 ++ v1 ++ v2 ++ v3 ++ v4 ++ v5)

/-- `validate_prerequisites`: a missing required column short-circuits,
returning only the `required_columns` violation; otherwise every remaining
check is evaluated and the full list is returned.  This function cannot
raise. -/
def validate_prerequisites (df : PrereqsDF) (valid_codes : List (Option String)) :
    List Violation :=
  let missing : List String :=
    (if df.has_course_code then [] else ["course_code"]) ++
    (if df.has_required_course_code then [] else ["required_course_code"])
  if missing ≠ [] then [⟨"required_columns", String.intercalate ", " missing⟩]
  else
    let codes := df.rows.map (·.course_code)
    let reqs := df.rows.map (·.required_course_code)
    (nullViolation "course_code" (nullCount codes)) ++
    (nullViolation "required_course_code" (nullCount reqs)) ++
    (if dupCount (df.rows.map fun r => (r.course_code, r.required_course_code)) ≠ 0 then
      [⟨"unique_prereq_pairs",
        toString (dupCount (df.rows.map fun r => (r.course_code, r.required_course_code)))⟩]
    else []) ++
    (if (df.rows.filter fun r => cellEq r.course_code r.required_course_code).length ≠ 0 then
      [⟨"no_self_reference", "self-referencing rows present"⟩] else []) ++
    (if (codes.any fun c => !(valid_codes.contains c)) ||
        (reqs.any fun c => !(valid_codes.contains c)) then
      [⟨"valid_fk_references", "Prerequisite references non-existent course_code"⟩] else [])

/-- `courses[col].value_counts().to_dict()` over the non-null cells; pandas
orders by descending count, a pure map here kept in first-occurrence order. -/
def valueCounts {β : Type} [DecidableEq β] (l : List β) : List (β × Nat) :=
  l.dedup.map fun v => (v, l.count v)

/-- The statistics report (the `generated_at` wall-clock timestamp of the
Python dict is I/O and is omitted). -/
structure Stats where
  total_courses : Nat
  by_program : List (String × Nat)
  by_type : List (String × Nat)
  avg_credits : Option ℚ
  unique_programs : Nat
  total_prereq_pairs : Nat
  courses_with_prereqs : Nat
  most_required_course : Option (Option String)
deriving DecidableEq

/-- `series.mean()`: pandas skips missing values and yields NaN (`none`) on an
empty series. -/
def seriesMean (l : List (Option Int)) : Option ℚ :=
  let vals := l.filterMap id
  if vals.length = 0 then none
  else some ((vals.map fun x => (x : ℚ)).sum / (vals.length : ℚ))

/-- `series.value_counts().idxmax()`: a value of maximal count (pandas takes
the head of the descending value_counts; ties are implementation-defined and
resolved here by first occurrence). -/
def idxmaxCount {β : Type} [DecidableEq β] (l : List β) : Option β :=
  (valueCounts l).foldl
    (fun best p => match best with
      | none => some p
      | some q => if p.2 > q.2 then some p else some q)
    none |>.map Prod.fst

/-- `generate_statistics` over the cleaned DataFrames. -/
def generate_statistics (courses : CoursesDF) (prereqs : PrereqsDF) :
    Except String Stats :=
  (courses.colProgramCode).bind fun progs =>
    (courses.colCourseType).bind fun types =>
      (courses.colCredits).bind fun creds =>
        (prereqs.colCourseCode).bind fun pcodes =>
          (prereqs.colRequired).bind fun preqs =>
            .ok
              { total_courses := courses.rows.length
                by_program := valueCounts (progs.filterMap id)
                by_type := valueCounts (types.filterMap id)
                avg_credits := seriesMean creds
                unique_programs := (progs.filterMap id).dedup.length
                total_prereq_pairs := prereqs.rows.length
                courses_with_prereqs := pcodes.dedup.length
                most_required_course :=
                  if prereqs.rows.length ≠ 0 then some (idxmaxCount (preqs.filterMap id))
                  else none }

/-- The cleaned dict `{"courses": ..., "prerequisites": ...}`. -/
structure Cleaned where
  courses : CoursesDF
  prerequisites : PrereqsDF
deriving DecidableEq

/-- `validate_data`: computes `valid_codes` from the cleaned course codes,
runs both validators, raises `ValueError` (modelled `.error`) carrying the
violation count when any violation exists, and otherwise returns the
statistics report (whose dump to `stats_report.json` is I/O outside this
model). -/
def validate_data (cleaned : Cleaned) : Except String Stats :=
  (cleaned.courses.colCourseCode).bind fun valid_codes =>
    (validate_courses cleaned.courses).bind fun course_violations =>
      let prereq_violations := validate_prerequisites cleaned.prerequisites valid_codes
      let all_violations := course_violations ++ prereq_violations
      if all_violations ≠ [] then
        .error ("Data validation failed with " ++ toString all_violations.length ++
          " violation(s). Check logs.")
      else generate_statistics cleaned.courses cleaned.prerequisites

/-- The violation list `validate_courses` returns when the four columns it
accesses unconditionally are present. -/
def courseChecksList (df : CoursesDF) : List Violation :=
  (if missingCourseCols df ≠ [] then
    [⟨"required_columns", String.intercalate ", " (missingCourseCols df)⟩]
  else []) ++
  ((if df.has_course_code then
    nullViolation "course_code" (nullCount (df.rows.map (·.course_code))) else []) ++
   (if df.has_course_name then
    nullViolation "course_name" (nullCount (df.rows.map (·.course_name))) else []) ++
   (if df.has_credits then
    nullViolation "credits" (nullCount (df.rows.map (·.credits))) else []) ++
   (if df.has_program_code then
    nullViolation "program_code" (nullCount (df.rows.map (·.program_code))) else []) ++
   (if df.has_course_type then
    nullViolation "course_type" (nullCount (df.rows.map (·.course_type))) else [])) ++
  (if dupCount (df.rows.map (·.course_code)) ≠ 0 then
    [⟨"unique_course_code", toString (dupCount (df.rows.map (·.course_code)))⟩] else []) ++
  (if ((df.rows.map (·.program_code)).filter fun c => !(cellIn VALID_PROGRAM_CODES c)).length ≠ 0
    then [⟨"valid_program_code", "invalid values present"⟩] else []) ++
  (if ((df.rows.map (·.course_type)).filter fun c => !(cellIn VALID_COURSE_TYPES c)).length ≠ 0
    then [⟨"valid_course_type", "invalid values present"⟩] else []) ++
  (if (df.rows.map (·.credits)).any (fun c => match c with
      | some x => decide (x ≤ 0) | none => false) then
    [⟨"positive_credits", "Credits <= 0 found"⟩] else [])

/-- The violation list `validate_prerequisites` returns when both its columns
are present. -/
def prereqChecksList (df : PrereqsDF) (valid_codes : List (Option String)) : List Violation :=
  (nullViolation "course_code" (nullCount (df.rows.map (·.course_code)))) ++
  (nullViolation "required_course_code" (nullCount (df.rows.map (·.required_course_code)))) ++
  (if dupCount (df.rows.map fun r => (r.course_code, r.required_course_code)) ≠ 0 then
    [⟨"unique_prereq_pairs",
      toString (dupCount (df.rows.map fun r => (r.course_code, r.required_course_code)))⟩]
  else []) ++
  (if (df.rows.filter fun r => cellEq r.course_code r.required_course_code).length ≠ 0 then
    [⟨"no_self_reference", "self-referencing rows present"⟩] else []) ++
  (if ((df.rows.map (·.course_code)).any fun c => !(valid_codes.contains c)) ||
      ((df.rows.map (·.required_course_code)).any fun c => !(valid_codes.contains c)) then
    [⟨"valid_fk_references", "Prerequisite references non-existent course_code"⟩] else [])

theorem validate_courses_eq_of_flags {df : CoursesDF}
    (h1 : df.has_course_code = true) (h2 : df.has_program_code = true)
    (h3 : df.has_course_type = true) (h4 : df.has_credits = true) :
    validate_courses df = Except.ok (courseChecksList df) := by
  obtain ⟨f1, f2, f3, f4, f5, rows⟩ := df
  simp only at h1 h2 h3 h4
  subst h1 h2 h3 h4
  rfl

theorem validate_prerequisites_eq_of_flags {df : PrereqsDF}
    {valid_codes : List (Option String)}
    (h1 : df.has_course_code = true) (h2 : df.has_required_course_code = true) :
    validate_prerequisites df valid_codes = prereqChecksList df valid_codes := by
  obtain ⟨f1, f2, rows⟩ := df
  simp only at h1 h2
  subst h1 h2
  rfl

theorem validate_prerequisites_missing_col {df : PrereqsDF}
    {valid_codes : List (Option String)}
    (h : df.has_course_code = false ∨ df.has_required_course_code = false) :
    (validate_prerequisites df valid_codes).map Violation.check = ["required_columns"] := by
  obtain ⟨f1, f2, rows⟩ := df
  simp only at h
  rcases h with h | h
  · subst h
    cases f2 <;> rfl
  · subst h
    cases f1 <;> rfl

end CourseWeave

namespace CourseWeaveClaims

open CourseWeave

/-- C4 (counterexample): on a cleaned input containing a duplicated course
code, `validate_data` raises `ValueError` (exception-as-control-flow) instead
of returning a typed `(success, violations)` result, refuting the claim. -/
theorem validate_data_raises_value_error :
    validate_data ⟨⟨true, true, true, true, true,
        [⟨some "A", some "N", some 4, some "MS_CS", some "Core"⟩,
         ⟨some "A", some "N", some 4, some "MS_CS", some "Core"⟩]⟩,
      ⟨true, true, []⟩⟩ =
      Except.error "Data validation failed with 1 violation(s). Check logs." := rfl

/-- C4 (amended): validation failure is communicated by raising `ValueError`
carrying the violation count — not by a typed result value: when the combined
violation list is non-empty `validate_data` raises, and only when it is empty
does it continue to statistics generation and return the report; the Airflow
caller catches the exception. -/
theorem validate_data_raises_iff_violations (cleaned : Cleaned)
    (h1 : cleaned.courses.has_course_code = true)
    (h2 : cleaned.courses.has_program_code = true)
    (h3 : cleaned.courses.has_course_type = true)
    (h4 : cleaned.courses.has_credits = true) :
    (courseChecksList cleaned.courses ++
        validate_prerequisites cleaned.prerequisites
          (cleaned.courses.rows.map (·.course_code)) ≠ [] →
      validate_data cleaned = Except.error
        ("Data validation failed with " ++
          toString (courseChecksList cleaned.courses ++
            validate_prerequisites cleaned.prerequisites
              (cleaned.courses.rows.map (·.course_code))).length ++
          " violation(s). Check logs.")) ∧
    (courseChecksList cleaned.courses ++
        validate_prerequisites cleaned.prerequisites
          (cleaned.courses.rows.map (·.course_code)) = [] →
      validate_data cleaned =
        generate_statistics cleaned.courses cleaned.prerequisites) := by
  have hcv := validate_courses_eq_of_flags h1 h2 h3 h4
  have hcol : cleaned.courses.colCourseCode =
      Except.ok (cleaned.courses.rows.map (·.course_code)) := by
    simp [CoursesDF.colCourseCode, h1]
  constructor <;> intro hall <;>
    simp [validate_data, hcol, hcv, Except.bind, hall]

/-- Witness for C4 (amended) at a violation-free one-course input. -/
theorem validate_data_raises_iff_violations_witness :
    courseChecksList ⟨true, true, true, true, true,
        [⟨some "A", some "N", some 4, some "MS_CS", some "Core"⟩]⟩ ++
      validate_prerequisites ⟨true, true, []⟩
        ((⟨true, true, true, true, true,
          [⟨some "A", some "N", some 4, some "MS_CS", some "Core"⟩]⟩ :
            CoursesDF).rows.map (·.course_code)) = [] ∧
    validate_data ⟨⟨true, true, true, true, true,
        [⟨some "A", some "N", some 4, some "MS_CS", some "Core"⟩]⟩, ⟨true, true, []⟩⟩ =
      generate_statistics
        ⟨true, true, true, true, true,
          [⟨some "A", some "N", some 4, some "MS_CS", some "Core"⟩]⟩ ⟨true, true, []⟩ :=
  ⟨rfl, (validate_data_raises_iff_violations _ rfl rfl rfl rfl).2 rfl⟩

/-- C3 (counterexample): on a DataFrame missing the `course_code` column,
`validate_courses` raises `KeyError` — the uniqueness check accesses
`df["course_code"]` unconditionally — instead of returning the violation
list, refuting the claimed no-throw behaviour for every input. -/
theorem validate_courses_keyerror_on_missing_column :
    validate_courses ⟨false, true, true, true, true, []⟩ =
      Except.error "KeyError: course_code" := rfl

/-- C3 (amended): `validate_prerequisites` never raises — a missing required
column short-circuits to just the `required_columns` violation — and
`validate_courses` returns its violation list exactly when the four columns
it accesses unconditionally (`course_code`, `program_code`, `course_type`,
`credits`) are present; a DataFrame missing one of those makes it raise
`KeyError`.  When the functions do return, every independent check has been
evaluated, so the single call surfaces every violation at once. -/
theorem validators_surface_every_violation :
    (∀ df : CoursesDF, df.has_course_code = true → df.has_program_code = true →
      df.has_course_type = true → df.has_credits = true →
      validate_courses df = Except.ok (courseChecksList df) ∧
      (missingCourseCols df ≠ [] →
        "required_columns" ∈ (courseChecksList df).map Violation.check) ∧
      (nullCount (df.rows.map (·.course_code)) ≠ 0 →
        "no_nulls" ∈ (courseChecksList df).map Violation.check) ∧
      (dupCount (df.rows.map (·.course_code)) ≠ 0 →
        "unique_course_code" ∈ (courseChecksList df).map Violation.check) ∧
      (((df.rows.map (·.program_code)).filter fun c =>
          !(cellIn VALID_PROGRAM_CODES c)).length ≠ 0 →
        "valid_program_code" ∈ (courseChecksList df).map Violation.check) ∧
      (((df.rows.map (·.course_type)).filter fun c =>
          !(cellIn VALID_COURSE_TYPES c)).length ≠ 0 →
        "valid_course_type" ∈ (courseChecksList df).map Violation.check) ∧
      ((df.rows.map (·.credits)).any (fun c => match c with
          | some x => decide (x ≤ 0) | none => false) = true →
        "positive_credits" ∈ (courseChecksList df).map Violation.check)) ∧
    (∀ (pdf : PrereqsDF) (valid_codes : List (Option String)),
      pdf.has_course_code = true → pdf.has_required_course_code = true →
      validate_prerequisites pdf valid_codes = prereqChecksList pdf valid_codes ∧
      (nullCount (pdf.rows.map (·.course_code)) ≠ 0 →
        "no_nulls" ∈ (prereqChecksList pdf valid_codes).map Violation.check) ∧
      (dupCount (pdf.rows.map fun r => (r.course_code, r.required_course_code)) ≠ 0 →
        "unique_prereq_pairs" ∈ (prereqChecksList pdf valid_codes).map Violation.check) ∧
      ((pdf.rows.filter fun r => cellEq r.course_code r.required_course_code).length ≠ 0 →
        "no_self_reference" ∈ (prereqChecksList pdf valid_codes).map Violation.check) ∧
      (((pdf.rows.map (·.course_code)).any fun c => !(valid_codes.contains c)) = true →
        "valid_fk_references" ∈ (prereqChecksList pdf valid_codes).map Violation.check)) ∧
    (∀ (pdf : PrereqsDF) (valid_codes : List (Option String)),
      pdf.has_course_code = false ∨ pdf.has_required_course_code = false →
      (validate_prerequisites pdf valid_codes).map Violation.check = ["required_columns"]) := by
  refine ⟨?_, ?_, ?_⟩
  · intro df h1 h2 h3 h4
    refine ⟨validate_courses_eq_of_flags h1 h2 h3 h4, ?_, ?_, ?_, ?_, ?_, ?_⟩ <;>
      intro hc <;>
      simp [courseChecksList, nullViolation, h1, h2, h3, h4, hc]
  · intro pdf valid_codes h1 h2
    refine ⟨validate_prerequisites_eq_of_flags h1 h2, ?_, ?_, ?_, ?_⟩ <;>
      intro hc <;>
      [skip; skip; skip; simp at hc] <;>
      simp [prereqChecksList, nullViolation, hc]
  · intro pdf valid_codes h
    exact validate_prerequisites_missing_col h

/-- Witness for C3 (amended): a 2-row DataFrame violating five checks at once
surfaces all five in one call, and a prerequisites DataFrame lacking its
columns short-circuits. -/
theorem validators_surface_every_violation_witness :
    (validate_courses ⟨true, true, true, true, true,
        [⟨none, some "N", some 0, some "BAD", some "Core"⟩,
         ⟨some "A", some "N", some 4, some "MS_CS", some "Weird"⟩,
         ⟨some "A", some "N", some 4, some "MS_CS", some "Core"⟩]⟩ =
      Except.ok (courseChecksList ⟨true, true, true, true, true,
        [⟨none, some "N", some 0, some "BAD", some "Core"⟩,
         ⟨some "A", some "N", some 4, some "MS_CS", some "Weird"⟩,
         ⟨some "A", some "N", some 4, some "MS_CS", some "Core"⟩]⟩)) ∧
    "no_nulls" ∈ (courseChecksList ⟨true, true, true, true, true,
        [⟨none, some "N", some 0, some "BAD", some "Core"⟩,
         ⟨some "A", some "N", some 4, some "MS_CS", some "Weird"⟩,
         ⟨some "A", some "N", some 4, some "MS_CS", some "Core"⟩]⟩).map Violation.check ∧
    "unique_course_code" ∈ (courseChecksList ⟨true, true, true, true, true,
        [⟨none, some "N", some 0, some "BAD", some "Core"⟩,
         ⟨some "A", some "N", some 4, some "MS_CS", some "Weird"⟩,
         ⟨some "A", some "N", some 4, some "MS_CS", some "Core"⟩]⟩).map Violation.check ∧
    "valid_program_code" ∈ (courseChecksList ⟨true, true, true, true, true,
        [⟨none, some "N", some 0, some "BAD", some "Core"⟩,
         ⟨some "A", some "N", some 4, some "MS_CS", some "Weird"⟩,
         ⟨some "A", some "N", some 4, some "MS_CS", some "Core"⟩]⟩).map Violation.check ∧
    "valid_course_type" ∈ (courseChecksList ⟨true, true, true, true, true,
        [⟨none, some "N", some 0, some "BAD", some "Core"⟩,
         ⟨some "A", some "N", some 4, some "MS_CS", some "Weird"⟩,
         ⟨some "A", some "N", some 4, some "MS_CS", some "Core"⟩]⟩).map Violation.check ∧
    "positive_credits" ∈ (courseChecksList ⟨true, true, true, true, true,
        [⟨none, some "N", some 0, some "BAD", some "Core"⟩,
         ⟨some "A", some "N", some 4, some "MS_CS", some "Weird"⟩,
         ⟨some "A", some "N", some 4, some "MS_CS", some "Core"⟩]⟩).map Violation.check ∧
    (validate_prerequisites ⟨false, false, []⟩ []).map Violation.check =
      ["required_columns"] := by
  have h := validators_surface_every_violation
  obtain ⟨hok, _, hnull, hdup, hprog, htype, hcred⟩ :=
    h.1 ⟨true, true, true, true, true,
      [⟨none, some "N", some 0, some "BAD", some "Core"⟩,
       ⟨some "A", some "N", some 4, some "MS_CS", some "Weird"⟩,
       ⟨some "A", some "N", some 4, some "MS_CS", some "Core"⟩]⟩ rfl rfl rfl rfl
  exact ⟨hok, hnull (by decide), hdup (by decide), hprog (by decide), htype (by decide),
    hcred (by decide), h.2.2 _ _ (Or.inl rfl)⟩

end CourseWeaveClaims

namespace CourseWeave

/-! ## Normalizer (`preprocess_data.py`)

A Python string is modelled as its list of code points; `strip`, `upper` and
`title` are modelled on ASCII (the course records are ASCII).  `astype(str)`
is applied only to cells that survived `dropna`, and on string cells it is
the identity, so it is not modelled separately. -/

/-- A Python string as a list of code points. -/
abbrev PyStr := List Nat

/-- The ASCII whitespace removed by `str.strip()`. -/
def isSpaceCode (n : Nat) : Bool :=
  n = 32 || n = 9 || n = 10 || n = 11 || n = 12 || n = 13

/-- ASCII letter. -/
def isAlphaCode (n : Nat) : Bool :=
  (65 ≤ n && n ≤ 90) || (97 ≤ n && n ≤ 122)

/-- ASCII uppercasing of one code point. -/
def toUpperCode (n : Nat) : Nat := if 97 ≤ n ∧ n ≤ 122 then n - 32 else n

/-- ASCII lowercasing of one code point. -/
def toLowerCode (n : Nat) : Nat := if 65 ≤ n ∧ n ≤ 90 then n + 32 else n

/-- `str.strip()`: drop leading, then trailing, whitespace. -/
def pyStrip (s : PyStr) : PyStr :=
  List.rdropWhile isSpaceCode (s.dropWhile isSpaceCode)

/-- `str.upper()`. -/
def pyUpper (s : PyStr) : PyStr := s.map toUpperCode

/-- `str.title()` worker: uppercase a letter after a non-letter, lowercase a
letter after a letter; the flag records whether the previous character was a
letter. -/
def pyTitleGo : Bool → PyStr → PyStr
  | _, [] => []
  | prev, c :: cs =>
    if isAlphaCode c then
      (if prev then toLowerCode c else toUpperCode c) :: pyTitleGo true cs
    else c :: pyTitleGo false cs

/-- `str.title()`. -/
def pyTitle (s : PyStr) : PyStr := pyTitleGo false s

/-- One raw course record (a cell is `none` for a missing value). -/
structure RawCourse where
  course_code : Option PyStr
  course_name : Option PyStr
  credits : Option Int
  program_code : Option PyStr
  course_type : Option PyStr
deriving DecidableEq

/-- One raw prerequisite record. -/
structure RawPrereq where
  course_code : Option PyStr
  required_course_code : Option PyStr
deriving DecidableEq

/-- `"MS_DAE"` as code points ('M' 77, 'S' 83, '_' 95, 'D' 68, 'A' 65, 'E' 69). -/
def MS_DAE : PyStr := [77, 83, 95, 68, 65, 69]

/-- `"MS_DS"`. -/
def MS_DS : PyStr := [77, 83, 95, 68, 83]

/-- `"MS_CS"` ('C' 67). -/
def MS_CS : PyStr := [77, 83, 95, 67, 83]

/-- `"MS_DA"`. -/
def MS_DA : PyStr := [77, 83, 95, 68, 65]

/-- `"MS_IS"` ('I' 73). -/
def MS_IS : PyStr := [77, 83, 95, 73, 83]

/-- `VALID_PROGRAM_CODES` of `preprocess_data.py`, as code-point strings. -/
def validProgramCodes : List PyStr := [MS_DAE, MS_DS, MS_CS, MS_DA, MS_IS]

/-- `"Core"` ('C' 67, 'o' 111, 'r' 114, 'e' 101). -/
def CoreStr : PyStr := [67, 111, 114, 101]

/-- `"Elective"` ('E' 69, 'l' 108, 'e' 101, 'c' 99, 't' 116, 'i' 105, 'v' 118). -/
def ElectiveStr : PyStr := [69, 108, 101, 99, 116, 105, 118, 101]

/-- `VALID_COURSE_TYPES` of `preprocess_data.py`, as code-point strings. -/
def validCourseTypes : List PyStr := [CoreStr, ElectiveStr]

/-- `drop_duplicates(subset=key, keep="first")`, worker carrying the keys
already seen. -/
def keepFirstByAux {γ β : Type} [DecidableEq β] (key : γ → β) :
    List β → List γ → List γ
  | _, [] => []
  | seen, x :: xs =>
    if key x ∈ seen then keepFirstByAux key seen xs
    else x :: keepFirstByAux key (key x :: seen) xs

/-- `drop_duplicates(subset=key, keep="first")`. -/
def keepFirstBy {γ β : Type} [DecidableEq β] (key : γ → β) (l : List γ) : List γ :=
  keepFirstByAux key [] l

/-- The row transformation of `preprocess_courses`: strip the four string
columns, then uppercase `course_code` and `program_code` and title-case
`course_type`; `credits` is untouched. -/
def transformCourse (r : RawCourse) : RawCourse :=
  { r with
    course_code := r.course_code.map fun s => pyUpper (pyStrip s)
    course_name := r.course_name.map pyStrip
    program_code := r.program_code.map fun s => pyUpper (pyStrip s)
    course_type := r.course_type.map fun s => pyTitle (pyStrip s) }

/-- `dropna(subset=required)` for courses: all five required cells present. -/
def courseRowComplete (r : RawCourse) : Bool :=
  r.course_code.isSome && r.course_name.isSome && r.credits.isSome &&
    r.program_code.isSome && r.course_type.isSome

/-- `df["program_code"].isin(VALID_PROGRAM_CODES)` on one row. -/
def courseProgramValid (r : RawCourse) : Bool :=
  match r.program_code with
  | some p => validProgramCodes.contains p
  | none => false

/-- `df["course_type"].isin(VALID_COURSE_TYPES)` on one row. -/
def courseTypeValid (r : RawCourse) : Bool :=
  match r.course_type with
  | some t => validCourseTypes.contains t
  | none => false

/-- `preprocess_courses`: dropna on the required fields first, then the
string transformations, de-duplication on `course_code` keeping the first
occurrence by input order, then the `program_code` and `course_type`
validity filters (the credits check only logs and drops nothing). -/
def preprocess_courses (df : List RawCourse) : List RawCourse :=
  ((keepFirstBy (fun r => r.course_code)
      ((df.filter courseRowComplete).map transformCourse)).filter
    courseProgramValid).filter courseTypeValid

/-- The row transformation of `preprocess_prerequisites`: strip and uppercase
both endpoints. -/
def transformPrereq (r : RawPrereq) : RawPrereq :=
  { course_code := r.course_code.map fun s => pyUpper (pyStrip s)
    required_course_code := r.required_course_code.map fun s => pyUpper (pyStrip s) }

/-- `dropna` for prerequisites: both endpoints present. -/
def prereqRowComplete (r : RawPrereq) : Bool :=
  r.course_code.isSome && r.required_course_code.isSome

/-- Orphan-removal predicate: both endpoints exist in the canonical codes. -/
def prereqEndpointsValid (codes : List PyStr) (r : RawPrereq) : Bool :=
  (match r.course_code with | some c => codes.contains c | none => false) &&
  (match r.required_course_code with | some c => codes.contains c | none => false)

/-- `preprocess_prerequisites`: dropna, strip/uppercase both endpoints, drop
duplicate pairs keeping the first, remove orphaned references. -/
def preprocess_prerequisites (df : List RawPrereq) (valid_course_codes : List PyStr) :
    List RawPrereq :=
  (keepFirstBy (fun r => (r.course_code, r.required_course_code))
      ((df.filter prereqRowComplete).map transformPrereq)).filter
    (prereqEndpointsValid valid_course_codes)

/-- `set(courses_clean["course_code"])` (used only through membership). -/
def cleanCourseCodes (courses : List RawCourse) : List PyStr :=
  courses.filterMap fun r => r.course_code

/-- `preprocess_data`: clean the courses, then clean the prerequisites
against the canonical course-code set of the same run. -/
def preprocess_data (rawCourses : List RawCourse) (rawPrereqs : List RawPrereq) :
    List RawCourse × List RawPrereq :=
  let courses_clean := preprocess_courses rawCourses
  (courses_clean, preprocess_prerequisites rawPrereqs (cleanCourseCodes courses_clean))

theorem toUpperCode_idem (n : Nat) : toUpperCode (toUpperCode n) = toUpperCode n := by
  unfold toUpperCode
  split_ifs <;> omega

theorem toLowerCode_idem (n : Nat) : toLowerCode (toLowerCode n) = toLowerCode n := by
  unfold toLowerCode
  split_ifs <;> omega

theorem isSpaceCode_toUpperCode (n : Nat) : isSpaceCode (toUpperCode n) = isSpaceCode n := by
  unfold toUpperCode
  split_ifs with h
  · have h1 : isSpaceCode (n - 32) = false := by simp [isSpaceCode]; omega
    have h2 : isSpaceCode n = false := by simp [isSpaceCode]; omega
    rw [h1, h2]
  · rfl

theorem isSpaceCode_toLowerCode (n : Nat) : isSpaceCode (toLowerCode n) = isSpaceCode n := by
  unfold toLowerCode
  split_ifs with h
  · have h1 : isSpaceCode (n + 32) = false := by simp [isSpaceCode]; omega
    have h2 : isSpaceCode n = false := by simp [isSpaceCode]; omega
    rw [h1, h2]
  · rfl

theorem isAlphaCode_toUpperCode (n : Nat) : isAlphaCode (toUpperCode n) = isAlphaCode n := by
  unfold toUpperCode
  split_ifs with h
  · have h1 : isAlphaCode (n - 32) = true := by simp [isAlphaCode]; omega
    have h2 : isAlphaCode n = true := by simp [isAlphaCode]; omega
    rw [h1, h2]
  · rfl

theorem isAlphaCode_toLowerCode (n : Nat) : isAlphaCode (toLowerCode n) = isAlphaCode n := by
  unfold toLowerCode
  split_ifs with h
  · have h1 : isAlphaCode (n + 32) = true := by simp [isAlphaCode]; omega
    have h2 : isAlphaCode n = true := by simp [isAlphaCode]; omega
    rw [h1, h2]
  · rfl

theorem isSpaceCode_titleChar (b : Bool) (n : Nat) :
    isSpaceCode (if b then toLowerCode n else toUpperCode n) = isSpaceCode n := by
  cases b <;> simp [isSpaceCode_toUpperCode, isSpaceCode_toLowerCode]

theorem isAlphaCode_titleChar (b : Bool) (n : Nat) :
    isAlphaCode (if b then toLowerCode n else toUpperCode n) = isAlphaCode n := by
  cases b <;> simp [isAlphaCode_toUpperCode, isAlphaCode_toLowerCode]

theorem pyTitleGo_idem (l : PyStr) : ∀ b, pyTitleGo b (pyTitleGo b l) = pyTitleGo b l := by
  induction l with
  | nil => intro b; rfl
  | cons c cs ih =>
    intro b
    by_cases hc : isAlphaCode c = true
    · rw [show pyTitleGo b (c :: cs) =
          (if b then toLowerCode c else toUpperCode c) :: pyTitleGo true cs from by
        simp [pyTitleGo, hc]]
      have hchar : isAlphaCode (if b then toLowerCode c else toUpperCode c) = true :=
        (isAlphaCode_titleChar b c).trans hc
      rw [show pyTitleGo b ((if b then toLowerCode c else toUpperCode c) :: pyTitleGo true cs) =
          (if b then toLowerCode (if b then toLowerCode c else toUpperCode c)
            else toUpperCode (if b then toLowerCode c else toUpperCode c)) ::
            pyTitleGo true (pyTitleGo true cs) from by
        simp [pyTitleGo, hchar]]
      rw [ih true]
      congr 1
      cases b <;> simp [toLowerCode_idem, toUpperCode_idem]
    · have hc' : isAlphaCode c = false := by simpa using hc
      rw [show pyTitleGo b (c :: cs) = c :: pyTitleGo false cs from by simp [pyTitleGo, hc']]
      rw [show pyTitleGo b (c :: pyTitleGo false cs) =
          c :: pyTitleGo false (pyTitleGo false cs) from by simp [pyTitleGo, hc']]
      rw [ih false]

theorem dropWhile_eq_self_of_front {p : Nat → Bool} {a b t : List Nat}
    (ha : a.dropWhile p = a) (hpre : b ++ t = a) :
    b.dropWhile p = b := by
  rw [List.dropWhile_eq_self_iff] at ha ⊢
  intro hl
  have hal : 0 < a.length := by
    rw [← hpre, List.length_append]
    omega
  have h0 : a[0]? = b[0]? := by
    conv_lhs => rw [← hpre]
    exact List.getElem?_append_left hl
  rw [List.getElem?_eq_getElem hal, List.getElem?_eq_getElem hl] at h0
  have hget : b.get ⟨0, hl⟩ = a.get ⟨0, hal⟩ := by
    rw [List.get_eq_getElem, List.get_eq_getElem]
    exact (Option.some.inj h0).symm
  rw [hget]
  exact ha hal

theorem pyStrip_dropWhile (s : PyStr) : (pyStrip s).dropWhile isSpaceCode = pyStrip s := by
  obtain ⟨t, ht⟩ := List.rdropWhile_prefix (p := isSpaceCode) (l := s.dropWhile isSpaceCode)
  unfold pyStrip
  exact dropWhile_eq_self_of_front (List.dropWhile_idempotent _ _) ht

theorem pyStrip_rdropWhile (s : PyStr) :
    List.rdropWhile isSpaceCode (pyStrip s) = pyStrip s := by
  unfold pyStrip
  exact List.rdropWhile_idempotent _ _

theorem pyStrip_fix {l : PyStr} (h1 : l.dropWhile isSpaceCode = l)
    (h2 : List.rdropWhile isSpaceCode l = l) : pyStrip l = l := by
  unfold pyStrip
  rw [h1, h2]

theorem pyStrip_idem (s : PyStr) : pyStrip (pyStrip s) = pyStrip s :=
  pyStrip_fix (pyStrip_dropWhile s) (pyStrip_rdropWhile s)

theorem dropWhile_map_space {f : Nat → Nat} (hf : ∀ n, isSpaceCode (f n) = isSpaceCode n)
    (l : List Nat) : (l.map f).dropWhile isSpaceCode = (l.dropWhile isSpaceCode).map f := by
  rw [List.dropWhile_map]
  have hcomp : isSpaceCode ∘ f = isSpaceCode := funext hf
  rw [hcomp]

theorem rdropWhile_map_space {f : Nat → Nat} (hf : ∀ n, isSpaceCode (f n) = isSpaceCode n)
    (l : List Nat) :
    List.rdropWhile isSpaceCode (l.map f) = (List.rdropWhile isSpaceCode l).map f := by
  unfold List.rdropWhile
  rw [← List.map_reverse, dropWhile_map_space hf, List.map_reverse]

theorem pyStrip_map_space {f : Nat → Nat} (hf : ∀ n, isSpaceCode (f n) = isSpaceCode n)
    (s : PyStr) : pyStrip (s.map f) = (pyStrip s).map f := by
  unfold pyStrip
  rw [dropWhile_map_space hf, rdropWhile_map_space hf]

theorem pyUpper_pyStrip_idem (s : PyStr) :
    pyUpper (pyStrip (pyUpper (pyStrip s))) = pyUpper (pyStrip s) := by
  unfold pyUpper
  rw [pyStrip_map_space isSpaceCode_toUpperCode, pyStrip_idem, List.map_map]
  congr 1
  funext n
  exact toUpperCode_idem n

theorem pyTitleGo_snoc_space (b : Bool) (xs : PyStr) (x : Nat) :
    ∃ (zs : PyStr) (y : Nat), pyTitleGo b (xs ++ [x]) = zs ++ [y] ∧
      isSpaceCode y = isSpaceCode x := by
  induction xs generalizing b with
  | nil =>
    by_cases hx : isAlphaCode x = true
    · exact ⟨[], _, by simp [pyTitleGo, hx], isSpaceCode_titleChar b x⟩
    · have hx' : isAlphaCode x = false := by simpa using hx
      exact ⟨[], x, by simp [pyTitleGo, hx'], rfl⟩
  | cons c cs ih =>
    by_cases hc : isAlphaCode c = true
    · obtain ⟨zs, y, heq, hsp⟩ := ih true
      exact ⟨(if b then toLowerCode c else toUpperCode c) :: zs, y,
        by simp [pyTitleGo, hc, heq], hsp⟩
    · have hc' : isAlphaCode c = false := by simpa using hc
      obtain ⟨zs, y, heq, hsp⟩ := ih false
      exact ⟨c :: zs, y, by simp [pyTitleGo, hc', heq], hsp⟩

theorem pyTitle_dropWhile {l : PyStr} (h : l.dropWhile isSpaceCode = l) (b : Bool) :
    (pyTitleGo b l).dropWhile isSpaceCode = pyTitleGo b l := by
  cases l with
  | nil => rfl
  | cons c cs =>
    have hc : isSpaceCode c = false := by
      by_contra hcon
      have hct : isSpaceCode c = true := by simpa using hcon
      rw [List.dropWhile_cons, if_pos hct] at h
      have hlen := congrArg List.length h
      have hle := (List.dropWhile_sublist (l := cs) isSpaceCode).length_le
      simp at hlen
      omega
    by_cases hca : isAlphaCode c = true
    · rw [show pyTitleGo b (c :: cs) =
          (if b then toLowerCode c else toUpperCode c) :: pyTitleGo true cs from by
        simp [pyTitleGo, hca]]
      rw [List.dropWhile_cons, (isSpaceCode_titleChar b c).trans hc]
      simp
    · have hca' : isAlphaCode c = false := by simpa using hca
      rw [show pyTitleGo b (c :: cs) = c :: pyTitleGo false cs from by
        simp [pyTitleGo, hca']]
      rw [List.dropWhile_cons, hc]
      simp

theorem pyTitle_rdropWhile {l : PyStr} (h : List.rdropWhile isSpaceCode l = l) (b : Bool) :
    List.rdropWhile isSpaceCode (pyTitleGo b l) = pyTitleGo b l := by
  rcases eq_or_ne l [] with rfl | hne
  · cases b <;> rfl
  · rw [List.rdropWhile_eq_self_iff] at h ⊢
    intro hl'
    obtain ⟨zs, y, heq, hsp⟩ := pyTitleGo_snoc_space b l.dropLast (l.getLast hne)
    rw [List.dropLast_append_getLast hne] at heq
    have h1 : (pyTitleGo b l).getLast? = some y := by
      rw [heq]
      exact List.getLast?_concat zs
    have h2 : (pyTitleGo b l).getLast? = some ((pyTitleGo b l).getLast hl') :=
      List.getLast?_eq_getLast _ hl'
    have hy : (pyTitleGo b l).getLast hl' = y := by
      exact Option.some.inj (h2.symm.trans h1)
    rw [hy, hsp]
    exact h hne

theorem pyTitle_pyStrip_idem (s : PyStr) :
    pyTitle (pyStrip (pyTitle (pyStrip s))) = pyTitle (pyStrip s) := by
  unfold pyTitle
  rw [pyStrip_fix (pyTitle_dropWhile (pyStrip_dropWhile s) false)
      (pyTitle_rdropWhile (pyStrip_rdropWhile s) false), pyTitleGo_idem]

theorem transformCourse_idem (r : RawCourse) :
    transformCourse (transformCourse r) = transformCourse r := by
  obtain ⟨cc, cn, cr, pc, ct⟩ := r
  simp only [transformCourse]
  congr 1
  · cases cc <;> simp [pyUpper_pyStrip_idem]
  · cases cn <;> simp [pyStrip_idem]
  · cases pc <;> simp [pyUpper_pyStrip_idem]
  · cases ct <;> simp [pyTitle_pyStrip_idem]

theorem transformPrereq_idem (r : RawPrereq) :
    transformPrereq (transformPrereq r) = transformPrereq r := by
  obtain ⟨cc, rc⟩ := r
  simp only [transformPrereq]
  congr 1
  · cases cc <;> simp [pyUpper_pyStrip_idem]
  · cases rc <;> simp [pyUpper_pyStrip_idem]

theorem courseRowComplete_transform (r : RawCourse) :
    courseRowComplete (transformCourse r) = courseRowComplete r := by
  obtain ⟨cc, cn, cr, pc, ct⟩ := r
  cases cc <;> cases cn <;> cases cr <;> cases pc <;> cases ct <;> rfl

theorem prereqRowComplete_transform (r : RawPrereq) :
    prereqRowComplete (transformPrereq r) = prereqRowComplete r := by
  obtain ⟨cc, rc⟩ := r
  cases cc <;> cases rc <;> rfl

theorem keepFirstByAux_sublist {γ β : Type} [DecidableEq β] (key : γ → β) :
    ∀ (seen : List β) (l : List γ), List.Sublist (keepFirstByAux key seen l) l := by
  intro seen l
  induction l generalizing seen with
  | nil => exact List.Sublist.refl []
  | cons x xs ih =>
    unfold keepFirstByAux
    split_ifs with h
    · exact (ih seen).cons x
    · exact (ih (key x :: seen)).cons₂ x

theorem keepFirstBy_sublist {γ β : Type} [DecidableEq β] (key : γ → β) (l : List γ) :
    List.Sublist (keepFirstBy key l) l :=
  keepFirstByAux_sublist key [] l

theorem keepFirstByAux_keys_nodup {γ β : Type} [DecidableEq β] (key : γ → β) :
    ∀ (seen : List β) (l : List γ),
      ((keepFirstByAux key seen l).map key).Nodup ∧
        ∀ b ∈ (keepFirstByAux key seen l).map key, b ∉ seen := by
  intro seen l
  induction l generalizing seen with
  | nil => exact ⟨List.nodup_nil, by simp [keepFirstByAux]⟩
  | cons x xs ih =>
    unfold keepFirstByAux
    split_ifs with h
    · exact ih seen
    · obtain ⟨hnd, hdisj⟩ := ih (key x :: seen)
      refine ⟨?_, ?_⟩
      · simp only [List.map_cons, List.nodup_cons]
        exact ⟨fun hmem => (hdisj _ hmem) (List.mem_cons_self _ _), hnd⟩
      · intro b hb
        simp only [List.map_cons, List.mem_cons] at hb
        rcases hb with rfl | hb
        · exact h
        · exact fun hbs => (hdisj b hb) (List.mem_cons_of_mem _ hbs)

theorem keepFirstBy_keys_nodup {γ β : Type} [DecidableEq β] (key : γ → β) (l : List γ) :
    ((keepFirstBy key l).map key).Nodup :=
  (keepFirstByAux_keys_nodup key [] l).1

theorem keepFirstByAux_eq_self {γ β : Type} [DecidableEq β] (key : γ → β) :
    ∀ (seen : List β) (l : List γ), (l.map key).Nodup →
      (∀ b ∈ l.map key, b ∉ seen) → keepFirstByAux key seen l = l := by
  intro seen l
  induction l generalizing seen with
  | nil => intro _ _; rfl
  | cons x xs ih =>
    intro hnd hdisj
    have hnd' : key x ∉ xs.map key ∧ (xs.map key).Nodup := by
      rw [List.map_cons, List.nodup_cons] at hnd
      exact hnd
    unfold keepFirstByAux
    rw [if_neg (hdisj (key x) (by simp))]
    congr 1
    apply ih
    · exact hnd'.2
    · intro b hb hmem
      rcases List.mem_cons.mp hmem with rfl | hbs
      · exact hnd'.1 hb
      · exact hdisj b (by simp [hb]) hbs

theorem keepFirstBy_eq_self {γ β : Type} [DecidableEq β] {key : γ → β} {l : List γ}
    (h : (l.map key).Nodup) : keepFirstBy key l = l :=
  keepFirstByAux_eq_self key [] l h (by simp)

theorem preprocess_courses_idem (df : List RawCourse) :
    preprocess_courses (preprocess_courses df) = preprocess_courses df := by
  set out := preprocess_courses df with hout
  have hsub1 : List.Sublist out (keepFirstBy (fun r => r.course_code)
      ((df.filter courseRowComplete).map transformCourse)) := by
    rw [hout, preprocess_courses]
    exact (List.filter_sublist _).trans (List.filter_sublist _)
  have hmemK : ∀ r ∈ out, r ∈ (df.filter courseRowComplete).map transformCourse :=
    fun r hr => (hsub1.trans (keepFirstBy_sublist _ _)).subset hr
  have himage : ∀ r ∈ out, transformCourse r = r := by
    intro r hr
    obtain ⟨r0, _, rfl⟩ := List.mem_map.mp (hmemK r hr)
    exact transformCourse_idem r0
  have hcomplete : ∀ r ∈ out, courseRowComplete r = true := by
    intro r hr
    obtain ⟨r0, hr0, rfl⟩ := List.mem_map.mp (hmemK r hr)
    rw [courseRowComplete_transform]
    exact (List.mem_filter.mp hr0).2
  have hprog : ∀ r ∈ out, courseProgramValid r = true := by
    intro r hr
    rw [hout, preprocess_courses] at hr
    exact (List.mem_filter.mp (List.mem_of_mem_filter hr)).2
  have htype : ∀ r ∈ out, courseTypeValid r = true := by
    intro r hr
    rw [hout, preprocess_courses] at hr
    exact (List.mem_filter.mp hr).2
  have hkeys : (out.map fun r => r.course_code).Nodup :=
    (keepFirstBy_keys_nodup (fun r : RawCourse => r.course_code) _).sublist
      (hsub1.map _)
  have hmap : out.map transformCourse = out :=
    (List.map_congr_left himage).trans (List.map_id out)
  show ((keepFirstBy _ ((out.filter courseRowComplete).map transformCourse)).filter
    courseProgramValid).filter courseTypeValid = out
  rw [List.filter_eq_self.mpr hcomplete, hmap, keepFirstBy_eq_self hkeys,
    List.filter_eq_self.mpr hprog, List.filter_eq_self.mpr htype]

theorem preprocess_prerequisites_idem (df : List RawPrereq) (codes : List PyStr) :
    preprocess_prerequisites (preprocess_prerequisites df codes) codes =
      preprocess_prerequisites df codes := by
  set out := preprocess_prerequisites df codes with hout
  have hsub1 : List.Sublist out
      (keepFirstBy (fun r => (r.course_code, r.required_course_code))
        ((df.filter prereqRowComplete).map transformPrereq)) := by
    rw [hout, preprocess_prerequisites]
    exact List.filter_sublist _
  have hmemK : ∀ r ∈ out, r ∈ (df.filter prereqRowComplete).map transformPrereq :=
    fun r hr => (hsub1.trans (keepFirstBy_sublist _ _)).subset hr
  have himage : ∀ r ∈ out, transformPrereq r = r := by
    intro r hr
    obtain ⟨r0, _, rfl⟩ := List.mem_map.mp (hmemK r hr)
    exact transformPrereq_idem r0
  have hcomplete : ∀ r ∈ out, prereqRowComplete r = true := by
    intro r hr
    obtain ⟨r0, hr0, rfl⟩ := List.mem_map.mp (hmemK r hr)
    rw [prereqRowComplete_transform]
    exact (List.mem_filter.mp hr0).2
  have hvalid : ∀ r ∈ out, prereqEndpointsValid codes r = true := by
    intro r hr
    rw [hout, preprocess_prerequisites] at hr
    exact (List.mem_filter.mp hr).2
  have hkeys : (out.map fun r => (r.course_code, r.required_course_code)).Nodup :=
    (keepFirstBy_keys_nodup (fun r : RawPrereq =>
      (r.course_code, r.required_course_code)) _).sublist (hsub1.map _)
  have hmap : out.map transformPrereq = out :=
    (List.map_congr_left himage).trans (List.map_id out)
  show (keepFirstBy _ ((out.filter prereqRowComplete).map transformPrereq)).filter
    (prereqEndpointsValid codes) = out
  rw [List.filter_eq_self.mpr hcomplete, hmap, keepFirstBy_eq_self hkeys,
    List.filter_eq_self.mpr hvalid]

end CourseWeave

namespace CourseWeaveClaims

open CourseWeave

/-- C6: normalization is idempotent — applying `preprocess_courses` and
`preprocess_prerequisites` (via `preprocess_data`) a second time to the
canonical output of the first application is a no-op: no further rows are
dropped and no field values change. -/
theorem preprocess_data_idempotent (rawCourses : List RawCourse)
    (rawPrereqs : List RawPrereq) :
    preprocess_data (preprocess_data rawCourses rawPrereqs).1
      (preprocess_data rawCourses rawPrereqs).2 =
      preprocess_data rawCourses rawPrereqs := by
  simp only [preprocess_data]
  rw [preprocess_courses_idem, preprocess_prerequisites_idem]

/-- C7: referential closure holds by construction — every edge in the
prerequisite output of `preprocess_data` has both endpoints present as
`course_code` values of the canonical course set produced in the same run. -/
theorem preprocess_referential_closure (rawCourses : List RawCourse)
    (rawPrereqs : List RawPrereq) (e : RawPrereq)
    (he : e ∈ (preprocess_data rawCourses rawPrereqs).2) :
    (∃ r ∈ (preprocess_data rawCourses rawPrereqs).1,
      r.course_code = e.course_code) ∧
    (∃ r ∈ (preprocess_data rawCourses rawPrereqs).1,
      r.course_code = e.required_course_code) := by
  simp only [preprocess_data, preprocess_prerequisites] at he ⊢
  have hv := (List.mem_filter.mp he).2
  unfold prereqEndpointsValid at hv
  rw [Bool.and_eq_true] at hv
  constructor
  · cases hcc : e.course_code with
    | none => rw [hcc] at hv; simp at hv
    | some c =>
      rw [hcc] at hv
      have hcmem : c ∈ cleanCourseCodes (preprocess_courses rawCourses) := by
        simpa using hv.1
      obtain ⟨r, hr, hrc⟩ := List.mem_filterMap.mp hcmem
      exact ⟨r, hr, hrc⟩
  · cases hcc : e.required_course_code with
    | none => rw [hcc] at hv; simp at hv
    | some c =>
      rw [hcc] at hv
      have hcmem : c ∈ cleanCourseCodes (preprocess_courses rawCourses) := by
        simpa using hv.2
      obtain ⟨r, hr, hrc⟩ := List.mem_filterMap.mp hcmem
      exact ⟨r, hr, hrc⟩

/-- Witness for C7 at the canonical two-course dataset with one edge
`"A" → "B"` (`[65]`, `[66]` as code points, `[78]` = "N"). -/
theorem preprocess_referential_closure_witness :
    (⟨some [65], some [66]⟩ : RawPrereq) ∈
      (preprocess_data
        [⟨some [65], some [78], some 4, some MS_CS, some CoreStr⟩,
         ⟨some [66], some [78], some 4, some MS_CS, some CoreStr⟩]
        [⟨some [65], some [66]⟩]).2 ∧
    ((∃ r ∈ (preprocess_data
        [⟨some [65], some [78], some 4, some MS_CS, some CoreStr⟩,
         ⟨some [66], some [78], some 4, some MS_CS, some CoreStr⟩]
        [⟨some [65], some [66]⟩]).1,
      r.course_code = (⟨some [65], some [66]⟩ : RawPrereq).course_code) ∧
     (∃ r ∈ (preprocess_data
        [⟨some [65], some [78], some 4, some MS_CS, some CoreStr⟩,
         ⟨some [66], some [78], some 4, some MS_CS, some CoreStr⟩]
        [⟨some [65], some [66]⟩]).1,
      r.course_code = (⟨some [65], some [66]⟩ : RawPrereq).required_course_code)) :=
  ⟨by decide, preprocess_referential_closure _ _ _ (by decide)⟩

/-- C10: de-duplication (first occurrence wins) runs before the
`program_code`/`course_type` validity filters, so a raw input whose first
row for code `"X"` (`[88]`) has the invalid program `"Q"` (`[81]`) while a
later duplicate row is fully valid produces no canonical row at all for that
code — even though the valid later row alone would have survived. -/
theorem dedup_before_filters_eliminates_course :
    preprocess_courses
      [⟨some [88], some [78], some 4, some [81], some CoreStr⟩,
       ⟨some [88], some [78], some 4, some MS_CS, some CoreStr⟩] = [] ∧
    preprocess_courses [⟨some [88], some [78], some 4, some MS_CS, some CoreStr⟩] =
      [⟨some [88], some [78], some 4, some MS_CS, some CoreStr⟩] := by
  constructor <;> decide

end CourseWeaveClaims

namespace CourseWeave

/-! ## Completion auditor (`detect_anomalies.detect_missing_prerequisites`)

The SQL query joins `student_courses` with `students` (for the email) and
with `prerequisites`, and keeps the join rows whose student has no completion
record of the required course (`NOT EXISTS`).  Tables are lists of rows; the
nested loops follow the FROM/JOIN order of the query. -/

variable {σ ε κ : Type} [DecidableEq σ] [DecidableEq ε] [DecidableEq κ]

/-- `detect_missing_prerequisites`: one row `(email, enrolled_course,
missing_prereq)` per join match without a completion of the prerequisite. -/
def detect_missing_prerequisites (student_courses : List (σ × κ))
    (students : List (σ × ε)) (prereqs : List (κ × κ)) : List (ε × κ × κ) :=
  student_courses.flatMap fun sc =>
    (students.filter fun s => s.1 = sc.1).flatMap fun s =>
      (prereqs.filter fun p => p.1 = sc.2).flatMap fun p =>
        if student_courses.any fun sc2 => sc2.1 = sc.1 && sc2.2 = p.2 then []
        else [(s.2, sc.2, p.2)]

theorem length_flatMap_if {γ δ : Type} (l : List γ) (A : γ → Bool) (x : γ → δ) :
    (l.flatMap fun p => if A p then [] else [x p]).length =
      (l.filter fun p => !A p).length := by
  induction l with
  | nil => rfl
  | cons c cs ih =>
    by_cases hc : A c = true <;>
      simp [List.flatMap_cons, List.filter_cons, hc, ih]

theorem mem_flatMap_if {γ δ : Type} (l : List γ) (A : γ → Bool) (x : γ → δ) (d : δ) :
    (d ∈ l.flatMap fun p => if A p then [] else [x p]) ↔
      ∃ p ∈ l, A p = false ∧ d = x p := by
  rw [List.mem_flatMap]
  constructor
  · rintro ⟨p, hp, hd⟩
    by_cases hA : A p = true
    · rw [if_pos hA] at hd
      cases hd
    · rw [if_neg hA] at hd
      exact ⟨p, hp, by simpa using hA, List.mem_singleton.mp hd⟩
  · rintro ⟨p, hp, hA, rfl⟩
    exact ⟨p, hp, by rw [if_neg (by simp [hA])]; exact List.mem_singleton_self _⟩

theorem filter_key_singleton {students : List (σ × ε)}
    (h : (students.map Prod.fst).Nodup) {a : σ}
    (ha : a ∈ students.map Prod.fst) :
    ∃ b, students.filter (fun s => s.1 = a) = [(a, b)] := by
  induction students with
  | nil => simp at ha
  | cons s rest ih =>
    rw [List.map_cons, List.nodup_cons] at h
    by_cases hs : s.1 = a
    · refine ⟨s.2, ?_⟩
      rw [List.filter_cons, if_pos (by simpa using hs)]
      have hrest : rest.filter (fun s => s.1 = a) = [] := by
        rw [List.filter_eq_nil_iff]
        intro x hx
        simp only [decide_eq_true_eq]
        intro hxa
        have : s.1 ∈ rest.map Prod.fst := by
          rw [hs]
          exact List.mem_map.mpr ⟨x, hx, hxa⟩
        exact h.1 this
      rw [hrest]
      have : s = (a, s.2) := by
        obtain ⟨s1, s2⟩ := s
        simp only at hs
        rw [hs]
      rw [← this]
    · rw [List.filter_cons, if_neg (by simpa using hs)]
      apply ih h.2
      rcases List.mem_map.mp ha with ⟨x, hx, hxa⟩
      rcases List.mem_cons.mp hx with rfl | hx'
      · exact absurd hxa hs
      · exact List.mem_map.mpr ⟨x, hx', hxa⟩

end CourseWeave

namespace CourseWeaveClaims

open CourseWeave

/-- C9: the completion auditor emits exactly one anomaly row
`(student, enrolled_course, missing_prereq)` for every pair of a completion
record and a prerequisite edge on the enrolled course whose required course
the student has not completed, and emits no other rows — stated for a
well-formed students table (unique ids covering the completions), which
supplies the reported email. -/
theorem detect_missing_one_row_per_pair {σ ε κ : Type}
    [DecidableEq σ] [DecidableEq ε] [DecidableEq κ]
    (student_courses : List (σ × κ)) (students : List (σ × ε))
    (prereqs : List (κ × κ))
    (hkeys : (students.map Prod.fst).Nodup)
    (hcover : ∀ sc ∈ student_courses, sc.1 ∈ students.map Prod.fst) :
    (detect_missing_prerequisites student_courses students prereqs).length =
      (student_courses.map fun sc =>
        (prereqs.filter fun p =>
          !(student_courses.any fun sc2 => sc2.1 = sc.1 && sc2.2 = p.2) &&
            p.1 = sc.2).length).sum ∧
    ∀ row : ε × κ × κ,
      row ∈ detect_missing_prerequisites student_courses students prereqs ↔
        ∃ sc ∈ student_courses, ∃ p ∈ prereqs, p.1 = sc.2 ∧
          ¬ (∃ sc2 ∈ student_courses, sc2.1 = sc.1 ∧ sc2.2 = p.2) ∧
          ∃ s ∈ students, s.1 = sc.1 ∧ row = (s.2, sc.2, p.2) := by
  constructor
  · rw [detect_missing_prerequisites, List.length_flatMap]
    congr 1
    apply List.map_congr_left
    intro sc hsc
    simp only [Function.comp_apply]
    obtain ⟨b, hb⟩ := filter_key_singleton hkeys (hcover sc hsc)
    rw [hb]
    simp only [List.flatMap_cons, List.flatMap_nil, List.append_nil]
    rw [length_flatMap_if, List.filter_filter]
  · intro row
    rw [detect_missing_prerequisites, List.mem_flatMap]
    constructor
    · rintro ⟨sc, hsc, hrow⟩
      obtain ⟨b, hb⟩ := filter_key_singleton hkeys (hcover sc hsc)
      rw [hb] at hrow
      simp only [List.flatMap_cons, List.flatMap_nil, List.append_nil] at hrow
      rw [mem_flatMap_if] at hrow
      obtain ⟨p, hp, hA, hroweq⟩ := hrow
      obtain ⟨hpmem, hp1⟩ := List.mem_filter.mp hp
      refine ⟨sc, hsc, p, hpmem, by simpa using hp1, ?_, ?_⟩
      · rintro ⟨sc2, hsc2, h1, h2⟩
        have hany : (student_courses.any fun sc2 => sc2.1 = sc.1 && sc2.2 = p.2) = true := by
          rw [List.any_eq_true]
          exact ⟨sc2, hsc2, by simp [h1, h2]⟩
        rw [hany] at hA
        cases hA
      · refine ⟨(sc.1, b), ?_, rfl, ?_⟩
        · have hmem : (sc.1, b) ∈ students.filter fun s => s.1 = sc.1 := by
            rw [hb]
            exact List.mem_singleton_self _
          exact (List.mem_filter.mp hmem).1
        · simpa using hroweq
    · rintro ⟨sc, hsc, p, hp, hp1, hnex, s, hs, hs1, rfl⟩
      obtain ⟨b, hb⟩ := filter_key_singleton hkeys (hcover sc hsc)
      have hsf : s ∈ students.filter fun s' => s'.1 = sc.1 :=
        List.mem_filter.mpr ⟨hs, by simpa using hs1⟩
      rw [hb] at hsf
      have hseq : s = (sc.1, b) := List.mem_singleton.mp hsf
      refine ⟨sc, hsc, ?_⟩
      rw [hb]
      simp only [List.flatMap_cons, List.flatMap_nil, List.append_nil]
      rw [mem_flatMap_if]
      refine ⟨p, List.mem_filter.mpr ⟨hp, by simpa using hp1⟩, ?_, ?_⟩
      · rw [Bool.eq_false_iff]
        intro hany
        rw [List.any_eq_true] at hany
        obtain ⟨sc2, hsc2, hcond⟩ := hany
        rw [Bool.and_eq_true] at hcond
        exact hnex ⟨sc2, hsc2, by simpa using hcond.1, by simpa using hcond.2⟩
      · rw [hseq]

/-- Witness for C9 at one student (id 0, email 7) who completed course 100
with prerequisite 200 left uncompleted. -/
theorem detect_missing_one_row_per_pair_witness :
    ((([((0 : Nat), (7 : Nat))]).map Prod.fst).Nodup ∧
      (∀ sc ∈ [((0 : Nat), (100 : Nat))],
        sc.1 ∈ ([((0 : Nat), (7 : Nat))]).map Prod.fst)) ∧
    ((detect_missing_prerequisites [((0 : Nat), (100 : Nat))] [(0, 7)]
        [(100, 200)]).length =
      ([((0 : Nat), (100 : Nat))].map fun sc =>
        ([((100 : Nat), (200 : Nat))].filter fun p =>
          !([((0 : Nat), (100 : Nat))].any fun sc2 =>
            sc2.1 = sc.1 && sc2.2 = p.2) && p.1 = sc.2).length).sum ∧
      ∀ row : Nat × Nat × Nat,
        row ∈ detect_missing_prerequisites [((0 : Nat), (100 : Nat))] [(0, 7)]
          [(100, 200)] ↔
          ∃ sc ∈ [((0 : Nat), (100 : Nat))], ∃ p ∈ [((100 : Nat), (200 : Nat))],
            p.1 = sc.2 ∧
            ¬ (∃ sc2 ∈ [((0 : Nat), (100 : Nat))], sc2.1 = sc.1 ∧ sc2.2 = p.2) ∧
            ∃ s ∈ [((0 : Nat), (7 : Nat))], s.1 = sc.1 ∧ row = (s.2, sc.2, p.2)) :=
  ⟨⟨by decide, by decide⟩,
    detect_missing_one_row_per_pair _ _ _ (by decide) (by decide)⟩

end CourseWeaveClaims
